import Mathlib

/-!
# HexQuest Economy simulation engine: verification of the specification

A shallow embedding of the core simulation engine of the HexQuest repository
(hex-grid geometry, the growth rule engine `checkGrowthCondition`, the
victory system, the action processor with optimistic-concurrency rejection,
the growth/movement tick systems and the A* pathfinder `findPath`),
together with proofs of the specified properties.

Conventions used throughout the embedding:

* JavaScript numbers that are only ever non-negative integers in the program
  (levels, progress, coins, versions, ranks, queue sizes) are modelled as
  `Nat`; axial coordinates, which may be negative, are modelled as `Int`.
* The source keys its grid record by the string `"q,r"` (`getHexKey`).  On
  integer coordinates this keying is injective, so the embedding keys the
  grid directly by the coordinate pair and models the record as an
  association list with first-match lookup (the same observable semantics
  as a JavaScript object / `Map`: setting a key shadows the old binding).
* Fallible results (`null` in the source) are modelled with `Option`.
* Mutation is modelled by explicit state passing; the engine's per-tick
  systems become functions from state to state.
-/

namespace HexQuest

/-! ## Geometry (src/services/hexUtils.ts) -/

/-- An axial hex coordinate `{q, r}`. -/
structure HexCoord where
  q : Int
  r : Int
deriving DecidableEq, Repr

/-- The six axial neighbor directions, in the order used by `getNeighbors`. -/
def hexDirections : List HexCoord :=
  [⟨1, 0⟩, ⟨1, -1⟩, ⟨0, -1⟩, ⟨-1, 0⟩, ⟨-1, 1⟩, ⟨0, 1⟩]

/-- `getNeighbors` from src/services/hexUtils.ts: the six adjacent coordinates. -/
def getNeighbors (q r : Int) : List HexCoord :=
  hexDirections.map fun d => ⟨q + d.q, r + d.r⟩

/-- `cubeDistance` from src/services/hexUtils.ts:
`(|aq-bq| + |aq+ar-bq-br| + |ar-br|) / 2`.  The sum is always even, so the
JavaScript division by 2 is exact and the result is a natural number. -/
def cubeDistance (a b : HexCoord) : Nat :=
  ((a.q - b.q).natAbs + (a.q + a.r - b.q - b.r).natAbs + (a.r - b.r).natAbs) / 2

/-! ## Data model (src/types.ts) -/

/-- A hex record (src/types.ts `Hex`), restricted to the fields the core
engine reads and writes. -/
structure Hex where
  id : String
  q : Int
  r : Int
  currentLevel : Nat
  maxLevel : Nat
  progress : Nat
  ownerId : Option String := none
  revealed : Bool := true
deriving DecidableEq, Repr

/-- The grid: the source's `Record<string, Hex>` keyed by `"q,r"`, modelled
as an association list keyed by the coordinate (string keying is injective
on integer coordinates).  Lookup returns the most recent binding, matching
JavaScript object-set semantics. -/
def Grid := List (HexCoord × Hex)

/-- Grid lookup, `grid[getHexKey(q,r)]` (`undefined` becomes `none`). -/
def Grid.get (g : Grid) (c : HexCoord) : Option Hex :=
  List.lookup c (g : List (HexCoord × Hex))

/-- Grid update, `grid[key] = hex` (shadowing set). -/
def Grid.set (g : Grid) (c : HexCoord) (h : Hex) : Grid :=
  ((c, h) :: (g : List (HexCoord × Hex)) : List (HexCoord × Hex))

/-- `EntityState` (src/types.ts). -/
inductive EntityState where
  | IDLE | MOVING | GROWING | LOCKED
deriving DecidableEq, Repr

/-- `EntityType` (src/types.ts). -/
inductive EntityType where
  | PLAYER | BOT
deriving DecidableEq, Repr

/-- An element of `movementQueue`: either a real move step or a
grow-in-place marker (`upgrade: true`). -/
structure QStep where
  q : Int
  r : Int
  upgrade : Bool := false
deriving DecidableEq, Repr

/-- Bot memory (src/types.ts `BotMemory`), restricted to the failure flags
read and written by the action processor (goal/plan fields are only used by
the bot planner, which is outside the claims under verification). -/
structure BotMemory where
  lastActionFailed : Bool := false
  failReason : Option String := none
deriving DecidableEq, Repr

/-- An entity (src/types.ts `Entity`), restricted to the fields the core
engine reads and writes.  `coins` is an `Int` because the upgrade-cost
deduction in the growth system may drive it negative. -/
structure Entity where
  id : String
  type : EntityType
  state : EntityState
  q : Int
  r : Int
  playerLevel : Nat
  coins : Int
  totalCoinsEarned : Nat
  moves : Nat
  recentUpgrades : List String
  movementQueue : List QStep
  memory : Option BotMemory := none
deriving DecidableEq, Repr

/-- The entity's position as a coordinate. -/
def Entity.pos (e : Entity) : HexCoord := ⟨e.q, e.r⟩

/-! ## The growth rule engine (src/rules/growth.ts) -/

/-- Result type of `checkGrowthCondition`. -/
structure GrowthCheckResult where
  canGrow : Bool
  reason : Option String := none
deriving DecidableEq, Repr

/-- The support-neighbor filter of the staircase rule: neighbors whose hex
exists in the grid and whose `maxLevel` is exactly the hex's `maxLevel`. -/
def supportNeighbors (hex : Hex) (neighbors : List HexCoord) (grid : Grid) :
    List HexCoord :=
  neighbors.filter fun n =>
    match grid.get n with
    | some neighborHex => neighborHex.maxLevel == hex.maxLevel
    | none => false

/-- Whether a support coordinate is occupied:
`occupiedHexes.some(o => o.q === s.q && o.r === s.r)`. -/
def isOccupiedCoord (occupiedHexes : List HexCoord) (s : HexCoord) : Bool :=
  occupiedHexes.any fun o => o.q == s.q && o.r == s.r

/-- `checkGrowthCondition` from src/rules/growth.ts: the ordered rule
ladder (missing hex, 99-cap, recovery, acquisition, cycle lock, rank gate,
staircase support with occupancy). -/
def checkGrowthCondition (hex : Option Hex) (entity : Entity)
    (neighbors : List HexCoord) (grid : Grid)
    (occupiedHexes : List HexCoord := []) (requiredQueueSize : Nat := 3) :
    GrowthCheckResult :=
  match hex with
  | none => { canGrow := false, reason := some "Invalid Hex" }
  | some hex =>
    let currentLevel := hex.currentLevel
    let targetLevel := currentLevel + 1
    if hex.maxLevel ≥ 99 then
      { canGrow := false, reason := some "MAX LEVEL" }
    else if targetLevel ≤ hex.maxLevel then
      { canGrow := true }
    else if targetLevel = 1 then
      { canGrow := true }
    else if targetLevel > 1 ∧ entity.recentUpgrades.length < requiredQueueSize then
      { canGrow := false
        reason := some s!"CYCLE INCOMPLETE ({entity.recentUpgrades.length}/{requiredQueueSize})" }
    else if entity.playerLevel < targetLevel - 1 then
      { canGrow := false
        reason := some s!"RANK TOO LOW (NEED L{targetLevel - 1})" }
    else if targetLevel > 1 then
      let supports := supportNeighbors hex neighbors grid
      if supports.length < 2 then
        { canGrow := false
          reason := some s!"NEED 2 SUPPORTS (EXACTLY L{hex.maxLevel})" }
      else
        let occupiedSupportCount :=
          (supports.filter (isOccupiedCoord occupiedHexes)).length
        if occupiedSupportCount > 1 then
          { canGrow := false, reason := some "SUPPORTS BLOCKED" }
        else
          { canGrow := true }
    else
      { canGrow := true }

/-- Character-list prefix test. -/
def charsPrefix : List Char → List Char → Bool
  | [], _ => true
  | _ :: _, [] => false
  | a :: pat, b :: s => a == b && charsPrefix pat s

/-- Character-list containment test: does `pat` occur contiguously in `s`? -/
def charsWithin (pat s : List Char) : Bool :=
  match s with
  | [] => charsPrefix pat []
  | _ :: rest => charsPrefix pat s || charsWithin pat rest

/-- Substring containment over strings, used to state `reason` properties
("reason containing X"). -/
def strContains (s pat : String) : Bool :=
  charsWithin pat.toList s.toList

/-! ## Session state (src/types.ts `SessionState`) -/

/-- `gameStatus` values. -/
inductive GameStatus where
  | PLAYING | GAME_OVER | VICTORY | DEFEAT
deriving DecidableEq, Repr

/-- `WinType` (src/types.ts). -/
inductive WinType where
  | WEALTH | DOMINATION
deriving DecidableEq, Repr

/-- `WinCondition` (src/types.ts). -/
structure WinCondition where
  type : WinType
  target : Nat
  botCount : Nat := 1
deriving DecidableEq, Repr

/-- Player growth intent from the UI. -/
inductive GrowthIntent where
  | RECOVER | UPGRADE
deriving DecidableEq, Repr

/-- The session state (src/types.ts `SessionState`), restricted to the
fields the modelled systems read and write. -/
structure SessionState where
  stateVersion : Nat
  winCondition : Option WinCondition
  grid : Grid
  player : Entity
  bots : List Entity
  gameStatus : GameStatus
  messageLog : List String
  isPlayerGrowing : Bool := false
  playerGrowthIntent : Option GrowthIntent := none
  growingBotIds : List String := []

/-- Unshift a message and truncate the log to at most 100 entries, the
`messageLog.unshift(...)` / `if (length > 100) pop()` idiom. -/
def pushLog (log : List String) (msg : String) : List String :=
  let l := msg :: log
  if l.length > 100 then l.dropLast else l

/-! ## VictorySystem (src/engine/systems/VictorySystem.ts) -/

/-- The event kinds the modelled systems emit.  The source attaches
wall-clock timestamps and payloads via `GameEventFactory.create`; the
embedding keeps only the event kind, which is all the claims mention. -/
inductive EventKind where
  | VICTORY | DEFEAT | LEADERBOARD_UPDATE | ACTION_DENIED | MOVE_COMPLETE
  | SECTOR_ACQUIRED | LEVEL_UP
deriving DecidableEq, Repr

/-- Does this entity meet the win condition?  Mirrors
`(type === 'WEALTH' && e.totalCoinsEarned >= target) ||
 (type === 'DOMINATION' && e.playerLevel >= target)`. -/
def meetsWin (wc : WinCondition) (e : Entity) : Bool :=
  (wc.type == WinType.WEALTH && decide (e.totalCoinsEarned ≥ wc.target)) ||
  (wc.type == WinType.DOMINATION && decide (e.playerLevel ≥ wc.target))

/-- `VictorySystem.update` (src/engine/systems/VictorySystem.ts): no-op
unless PLAYING with a win condition; player checked first (a player win
short-circuits the bot check); otherwise any winning bot sets DEFEAT. -/
def victoryUpdate (s : SessionState) : SessionState × List EventKind :=
  match s.winCondition with
  | none => (s, [])
  | some wc =>
    if s.gameStatus ≠ GameStatus.PLAYING then (s, [])
    else if meetsWin wc s.player then
      ({ s with gameStatus := GameStatus.VICTORY
                messageLog := pushLog s.messageLog "[SYSTEM] Mission Accomplished" },
       [EventKind.VICTORY, EventKind.LEADERBOARD_UPDATE])
    else if s.bots.any (meetsWin wc) then
      ({ s with gameStatus := GameStatus.DEFEAT
                messageLog := pushLog s.messageLog
                  "[SYSTEM] Mission Failed: Rival completed objective" },
       [EventKind.DEFEAT, EventKind.LEADERBOARD_UPDATE])
    else (s, [])

/-! ## WorldIndex

Modelled from the spec: the file src/engine/WorldIndex.ts imported by the
engine systems is not part of the provided sources (only the legacy
src/gameEngine/WorldIndex.ts is).  Per §4.3 of the specification the index
offers an occupancy test, entity-at-coordinate, the full occupied
coordinate list, and existing-neighbor lookup over the live grid and
entity list, and must reflect position changes made earlier in the same
tick. -/

/-- The world index: the live grid plus the entity list it was built
from. -/
structure WorldIndex where
  grid : Grid
  entities : List Entity

/-- Neighbor hexes that exist in the grid. -/
def WorldIndex.getValidNeighbors (w : WorldIndex) (q r : Int) : List Hex :=
  (getNeighbors q r).filterMap fun n => w.grid.get n

/-- The coordinates of all indexed entities. -/
def WorldIndex.getOccupiedHexesList (w : WorldIndex) : List HexCoord :=
  w.entities.map Entity.pos

/-! ## ActionProcessor (src/engine/ActionProcessor.ts) and
`GameEngine.applyAction` (src/engine/GameEngine.ts) -/

/-- An external action (src/types.ts `BotAction`): MOVE, UPGRADE or WAIT,
each optionally carrying the stateVersion it was computed against. -/
inductive GameAction where
  | MOVE (path : List HexCoord) (stateVersion : Option Nat := none)
  | UPGRADE (coord : HexCoord) (stateVersion : Option Nat := none)
  | WAIT (stateVersion : Option Nat := none)
deriving DecidableEq, Repr

/-- The concurrency token carried by an action. -/
def GameAction.stateVersion : GameAction → Option Nat
  | .MOVE _ v => v
  | .UPGRADE _ v => v
  | .WAIT v => v

/-- `ValidationResult` (src/types.ts). -/
structure ValidationResult where
  ok : Bool
  reason : Option String := none
deriving DecidableEq, Repr

/-- Actor lookup:
`state.player.id === actorId ? state.player : state.bots.find(...)`. -/
def findActor (s : SessionState) (actorId : String) : Option Entity :=
  if s.player.id == actorId then some s.player
  else s.bots.find? fun b => b.id == actorId

/-- Action-specific validation rules (step 3 of
`ActionProcessor.validateAction`). -/
def validateActionRules (s : SessionState) (w : WorldIndex) (actor : Entity)
    (action : GameAction) : ValidationResult :=
  match action with
  | .UPGRADE coord _ =>
    match s.grid.get coord with
    | none => { ok := false, reason := some "Invalid Coord" }
    | some hex =>
      let neighbors := (w.getValidNeighbors coord.q coord.r).map fun h =>
        (⟨h.q, h.r⟩ : HexCoord)
      let occupied := w.getOccupiedHexesList
      let check := checkGrowthCondition (some hex) actor neighbors s.grid occupied
      if check.canGrow then { ok := true } else { ok := false, reason := check.reason }
  | .MOVE path _ =>
    if path.length = 0 then { ok := false, reason := some "Empty Path" } else { ok := true }
  | .WAIT _ => { ok := true }

/-- `ActionProcessor.validateAction`: actor existence, the stale-state
check, the LOCKED check, then the action-specific rules. -/
def validateAction (s : SessionState) (w : WorldIndex) (actorId : String)
    (action : GameAction) : ValidationResult :=
  match findActor s actorId with
  | none => { ok := false, reason := some "Entity not found" }
  | some actor =>
    match action.stateVersion with
    | some v =>
      if v ≠ s.stateVersion then
        { ok := false, reason := some s!"STALE STATE (v{v} vs v{s.stateVersion})" }
      else if actor.state = EntityState.LOCKED then
        { ok := false, reason := some "Actor Locked" }
      else validateActionRules s w actor action
    | none =>
      if actor.state = EntityState.LOCKED then
        { ok := false, reason := some "Actor Locked" }
      else validateActionRules s w actor action

/-- Replace the actor (wherever it lives: player slot or bot list) by the
updated entity, modelling the in-place mutation of the found object. -/
def updateActor (s : SessionState) (actorId : String) (f : Entity → Entity) :
    SessionState :=
  if s.player.id == actorId then { s with player := f s.player }
  else { s with bots := s.bots.map fun b => if b.id == actorId then f b else b }

/-- `ActionProcessor.applyAction`: validate; on failure record the failure
on a bot actor's memory and return it; on success clear failure flags,
interrupt GROWING on MOVE, and install the action's effect in the
movement queue. -/
def applyActionProcessor (s : SessionState) (w : WorldIndex) (actorId : String)
    (action : GameAction) : SessionState × ValidationResult :=
  let validation := validateAction s w actorId action
  match findActor s actorId with
  | none =>
    if validation.ok then (s, { ok := false, reason := some "Actor vanished" })
    else (s, validation)
  | some actor =>
    if validation.ok = false then
      if actor.type = EntityType.BOT then
        (updateActor s actorId fun a =>
          { a with memory := some { lastActionFailed := true
                                    failReason := validation.reason } },
         validation)
      else (s, validation)
    else
      let s1 := updateActor s actorId fun a =>
        let a1 := match a.memory with
          | some _ => { a with memory := some { lastActionFailed := false
                                                failReason := none } }
          | none => a
        let a2 := if a1.state = EntityState.GROWING ∧ isMoveAction action = true
          then { a1 with state := EntityState.IDLE } else a1
        match action with
        | .MOVE path _ =>
          { a2 with movementQueue := path.map fun c => ⟨c.q, c.r, false⟩ }
        | .UPGRADE coord _ => { a2 with movementQueue := [⟨coord.q, coord.r, true⟩] }
        | .WAIT _ => a2
      (s1, { ok := true })
where
  /-- Is the action a MOVE? -/
  isMoveAction : GameAction → Bool
    | .MOVE _ _ => true
    | _ => false

/-- `GameEngine.applyAction`: run the processor on a scratch copy of the
committed state and commit it (bumping `stateVersion`) only when the
result is ok; a failed action leaves the committed state untouched. -/
def engineApplyAction (s : SessionState) (w : WorldIndex) (actorId : String)
    (action : GameAction) : SessionState × ValidationResult :=
  let next := applyActionProcessor s w actorId action
  if next.2.ok then ({ next.1 with stateVersion := next.1.stateVersion + 1 }, next.2)
  else (s, next.2)

/-! ## Level configuration (src/rules/config.ts) -/

/-- A per-level configuration entry. -/
structure LevelConfig where
  cost : Nat
  growthTime : Nat
  income : Nat
  reqRank : Nat
deriving DecidableEq, Repr

/-- The `GAME_CONFIG.LEVELS` table. -/
def configLevels : Nat → Option LevelConfig
  | 0 => some ⟨1, 5, 1, 0⟩
  | 1 => some ⟨1, 10, 5, 0⟩
  | 2 => some ⟨2, 15, 10, 1⟩
  | 3 => some ⟨3, 20, 25, 2⟩
  | 4 => some ⟨4, 25, 50, 3⟩
  | 5 => some ⟨5, 30, 100, 4⟩
  | 6 => some ⟨6, 35, 200, 5⟩
  | 7 => some ⟨7, 40, 400, 6⟩
  | 8 => some ⟨8, 50, 800, 7⟩
  | 9 => some ⟨9, 60, 1500, 8⟩
  | _ => none

/-- `getLevelConfig`: the table entry, or the generated fallback
`{cost: level, growthTime: 5 + level*5, income: level², reqRank: level-1}`
for levels beyond the table. -/
def getLevelConfig (level : Nat) : LevelConfig :=
  (configLevels level).getD ⟨level, 5 + level * 5, level ^ 2, level - 1⟩

/-- `GAME_CONFIG.UPGRADE_LOCK_QUEUE_SIZE`. -/
def UPGRADE_LOCK_QUEUE_SIZE : Nat := 3

/-! ## GrowthSystem level-up (src/unnamed/part_001 `GrowthSystem.processEntity`,
lines 101–150) -/

/-- The cycle-queue push on a level-1 acquisition:
`q = [...recentUpgrades, hex.id]; if (q.length > queueSize) q.shift()`. -/
def pushRecentUpgrade (queue : List String) (hexId : String) (queueSize : Nat) :
    List String :=
  let q := queue ++ [hexId]
  if q.length > queueSize then q.tail else q

/-- The hex after a completed level-up:
`{...hex, currentLevel: targetLevel, maxLevel: newMaxLevel, progress: 0,
ownerId: newOwnerId}` where `newMaxLevel` rises to `targetLevel` when
exceeded and ownership transfers on a level-1 acquisition. -/
def levelUpHex (hex : Hex) (entityId : String) : Hex :=
  let targetLevel := hex.currentLevel + 1
  { hex with
    currentLevel := targetLevel
    maxLevel := max hex.maxLevel targetLevel
    progress := 0
    ownerId := if hex.maxLevel < targetLevel ∧ targetLevel = 1
      then some entityId else hex.ownerId }

/-- The entity after a completed level-up: rank raised monotonically, the
upgrade cost deducted and income/moves awarded, and — exactly on a
level-1 acquisition — the hex id pushed onto `recentUpgrades`. -/
def growthLevelUpEntity (queueSize : Nat) (e : Entity) (hex : Hex) : Entity :=
  let targetLevel := hex.currentLevel + 1
  let config := getLevelConfig targetLevel
  let e1 :=
    if hex.maxLevel < targetLevel then
      let raised := { e with playerLevel := max e.playerLevel targetLevel
                             coins := e.coins - (config.cost : Int) }
      if targetLevel = 1 then
        { raised with recentUpgrades :=
            pushRecentUpgrade raised.recentUpgrades hex.id queueSize }
      else raised
    else e
  { e1 with coins := e1.coins + (config.income : Int)
            totalCoinsEarned := e1.totalCoinsEarned + config.income
            moves := e1.moves + 1 }

/-! ## Grid evolution (for the hex-bounds invariant)

The committed session state's grid is only ever written by
`GrowthSystem.processEntity` (the level-up write and the progress-tick
write, both guarded by a successful `checkGrowthCondition`) and by
`MovementSystem.processEntity` (lazy level-0 hex creation and the
revealed-flag rewrite).  `GridStep` is the step relation generated by
those four writes. -/

/-- The string key `"q,r"` of a coordinate. -/
def hexKeyString (c : HexCoord) : String :=
  toString c.q ++ "," ++ toString c.r

/-- A lazily materialized level-0 hex
(`{id: k, q, r, currentLevel: 0, maxLevel: 0, progress: 0, revealed: true}`). -/
def freshHex (c : HexCoord) : Hex :=
  { id := hexKeyString c, q := c.q, r := c.r
    currentLevel := 0, maxLevel := 0, progress := 0
    ownerId := none, revealed := true }

/-- One committed write to the grid. -/
inductive GridStep (queueSize : Nat) : Grid → Grid → Prop where
  /-- A completed level-up at `c`, guarded by `checkGrowthCondition` and by
  the growth-time threshold. -/
  | levelUp (g : Grid) (c : HexCoord) (hex : Hex) (entity : Entity)
      (neighbors : List HexCoord) (occupied : List HexCoord)
      (hget : g.get c = some hex)
      (hcan : (checkGrowthCondition (some hex) entity neighbors g occupied
        queueSize).canGrow = true)
      (hprog : (getLevelConfig (hex.currentLevel + 1)).growthTime ≤ hex.progress + 1) :
      GridStep queueSize g (g.set c (levelUpHex hex entity.id))
  /-- A growth-progress tick at `c`. -/
  | tickProgress (g : Grid) (c : HexCoord) (hex : Hex) (entity : Entity)
      (neighbors : List HexCoord) (occupied : List HexCoord)
      (hget : g.get c = some hex)
      (hcan : (checkGrowthCondition (some hex) entity neighbors g occupied
        queueSize).canGrow = true)
      (hprog : hex.progress + 1 < (getLevelConfig (hex.currentLevel + 1)).growthTime) :
      GridStep queueSize g (g.set c { hex with progress := hex.progress + 1 })
  /-- Lazy creation of a level-0 hex on first reveal. -/
  | revealNew (g : Grid) (c : HexCoord) (hget : g.get c = none) :
      GridStep queueSize g (g.set c (freshHex c))
  /-- Re-reveal of an existing hex (only the `revealed` flag changes). -/
  | revealExisting (g : Grid) (c : HexCoord) (hex : Hex)
      (hget : g.get c = some hex) :
      GridStep queueSize g (g.set c { hex with revealed := true })

/-- The inductive strengthening of the hex bounds: every reachable hex in
fact satisfies `currentLevel ≤ maxLevel` (the claimed `≤ maxLevel + 1` is
a weakening) together with the 99 cap. -/
def HexInv (h : Hex) : Prop :=
  h.currentLevel ≤ h.maxLevel ∧ h.maxLevel ≤ 99

/-- All hexes of a grid satisfy the strengthened bounds. -/
def GridInv (g : Grid) : Prop :=
  ∀ c hex, g.get c = some hex → HexInv hex

/-! ## MovementSystem (src/engine/systems/MovementSystem.ts) -/

/-- Modelled from the spec: `WorldIndex.updateEntityPosition` of the
missing src/engine/WorldIndex.ts — the occupancy map drops the old
coordinate and records the new one, immediately visible to entities
processed later in the same tick (§4.3, §4.6 of the specification).  The
occupancy map is modelled as the list of occupied coordinates. -/
def occUpdate (occ : List HexCoord) (oldPos newPos : HexCoord) : List HexCoord :=
  newPos :: occ.erase oldPos

/-- Reveal one coordinate: materialize a level-0 hex where absent,
otherwise rewrite the hex with `revealed: true`. -/
def revealAt (g : Grid) (c : HexCoord) : Grid :=
  match g.get c with
  | none => g.set c (freshHex c)
  | some h => g.set c { h with revealed := true }

/-- Reveal the destination's neighbors and the destination itself
(`[...neighbors, {q,r}].forEach(...)`). -/
def revealAround (g : Grid) (q r : Int) : Grid :=
  ((getNeighbors q r) ++ [(⟨q, r⟩ : HexCoord)]).foldl revealAt g

/-- `MovementSystem.processEntity`: FSM guard, completion check, the
upgrade-marker skip, the collision check against the occupancy index, and
the executed move with the immediate index update and fog-of-war reveal.
Log/event emission is omitted (it does not touch entities, occupancy or
hex levels). -/
def movementProcessEntity (e : Entity) (occ : List HexCoord) (g : Grid) :
    Entity × List HexCoord × Grid :=
  if e.state ≠ EntityState.IDLE ∧ e.state ≠ EntityState.MOVING then (e, occ, g)
  else
    match e.movementQueue with
    | [] =>
      if e.state = EntityState.MOVING
      then ({ e with state := EntityState.IDLE }, occ, g)
      else (e, occ, g)
    | nextStep :: rest =>
      if nextStep.upgrade then (e, occ, g)
      else if (⟨nextStep.q, nextStep.r⟩ : HexCoord) ∈ occ ∧
          (nextStep.q ≠ e.q ∨ nextStep.r ≠ e.r) then
        ({ e with movementQueue := [], state := EntityState.IDLE }, occ, g)
      else
        let e1 := { e with state := EntityState.MOVING
                           movementQueue := rest
                           q := nextStep.q, r := nextStep.r }
        let occ1 := occUpdate occ ⟨e.q, e.r⟩ ⟨nextStep.q, nextStep.r⟩
        (e1, occ1, revealAround g nextStep.q nextStep.r)

/-- `MovementSystem.update`: process the entities (`[player, ...bots]`)
sequentially, threading the occupancy index and the grid so that every
entity sees the position changes made earlier in the same tick. -/
def movementPass : List Entity → List HexCoord → Grid →
    List Entity × List HexCoord × Grid
  | [], occ, g => ([], occ, g)
  | e :: rest, occ, g =>
    let step := movementProcessEntity e occ g
    let restResult := movementPass rest step.2.1 step.2.2
    (step.1 :: restResult.1, restResult.2.1, restResult.2.2)

/-! ## A* pathfinder (src/services/hexUtils.ts `findPath` and its
`PriorityQueue`) -/

/-- Modelled from the spec: `SAFETY_CONFIG` (`MAX_PATH_LENGTH`,
`MAX_SEARCH_ITERATIONS`) is imported from a configuration file that is not
among the provided sources; §4.2 of the specification describes them as
configured caps on straight-line distance and on search iterations.  The
pathfinder is parameterized by them. -/
structure SafetyConfig where
  maxPathLength : Nat
  maxSearchIterations : Nat

/-- A heap entry `{node, weight}`.  Nodes are hex keys, identified with
coordinates. -/
abbrev HeapEntry := HexCoord × Nat

/-- Swap two positions of the heap array. -/
def heapSwap (l : List HeapEntry) (i j : Nat) : List HeapEntry :=
  match l.get? i, l.get? j with
  | some a, some b => (l.set i b).set j a
  | _, _ => l

/-- `PriorityQueue._bubbleUp`: move the element at `index` up while it is
strictly lighter than its parent. -/
def bubbleUp (l : List HeapEntry) (index : Nat) : List HeapEntry :=
  if index = 0 then l
  else
    match l.get? index, l.get? ((index - 1) / 2) with
    | some e, some p =>
      if e.2 ≥ p.2 then l
      else bubbleUp (heapSwap l index ((index - 1) / 2)) ((index - 1) / 2)
    | _, _ => l
termination_by index
decreasing_by
  have : (index - 1) / 2 < index := by omega
  omega

/-- `PriorityQueue.push`: append and bubble up from the last slot. -/
def PQpush (l : List HeapEntry) (node : HexCoord) (weight : Nat) :
    List HeapEntry :=
  bubbleUp (l ++ [(node, weight)]) l.length

/-- The swap target chosen by `PriorityQueue._sinkDown` at `index`: the
left child if lighter than the element, overridden by the right child
when it is lighter than the element (no left candidate) or lighter than
the left child — i.e. the lightest child when it beats the element. -/
def sinkSwapTarget (l : List HeapEntry) (index : Nat) (elem : HeapEntry) :
    Option Nat :=
  match l.get? (2 * index + 1), l.get? (2 * index + 2) with
  | none, none => none
  | some leftChild, none =>
    if leftChild.2 < elem.2 then some (2 * index + 1) else none
  | none, some rightChild =>
    if rightChild.2 < elem.2 then some (2 * index + 2) else none
  | some leftChild, some rightChild =>
    if leftChild.2 < elem.2 then
      if rightChild.2 < leftChild.2 then some (2 * index + 2)
      else some (2 * index + 1)
    else
      if rightChild.2 < elem.2 then some (2 * index + 2) else none

/-- `PriorityQueue._sinkDown`: move the element at `index` down, swapping
with its lighter child, until heap order is restored below it. -/
def sinkDown (l : List HeapEntry) (index : Nat) : List HeapEntry :=
  match l.get? index with
  | none => l
  | some elem =>
    match htgt : sinkSwapTarget l index elem with
    | none => l
    | some j => sinkDown (heapSwap l index j) j
termination_by l.length - index
decreasing_by
  have hjlt : index < j ∧ j < l.length := by
    unfold sinkSwapTarget at htgt
    split at htgt
    · cases htgt
    · next lc hl hr =>
      split at htgt
      · cases htgt
        obtain ⟨hlt, _⟩ := List.get?_eq_some.mp hl
        exact ⟨by omega, hlt⟩
      · cases htgt
    · next rc hl hr =>
      split at htgt
      · cases htgt
        obtain ⟨hlt, _⟩ := List.get?_eq_some.mp hr
        exact ⟨by omega, hlt⟩
      · cases htgt
    · next lc rc hl hr =>
      obtain ⟨hlt1, _⟩ := List.get?_eq_some.mp hl
      obtain ⟨hlt2, _⟩ := List.get?_eq_some.mp hr
      split at htgt
      · split at htgt <;> (cases htgt; exact ⟨by omega, by omega⟩)
      · split at htgt
        · cases htgt
          exact ⟨by omega, by omega⟩
        · cases htgt
  have hlen : (heapSwap l index j).length = l.length := by
    unfold heapSwap
    split
    · simp
    · rfl
  omega

/-- `PriorityQueue.pop`: return the root; move the last element to the
root and sink it down. -/
def PQpop (l : List HeapEntry) : Option (HeapEntry × List HeapEntry) :=
  match l with
  | [] => none
  | top :: _ =>
    match l.getLast? with
    | none => none
    | some bottom =>
      if 0 < l.dropLast.length
      then some (top, sinkDown (l.dropLast.set 0 bottom) 0)
      else some (top, l.dropLast)

/-- The per-step cost: `neighbor.maxLevel` when at least 2, else 1
(missing hexes cost 1). -/
def stepCost (grid : Grid) (c : HexCoord) : Nat :=
  match grid.get c with
  | some h => if h.maxLevel ≥ 2 then h.maxLevel else 1
  | none => 1

/-- The total cost of a path (the sum of its per-step costs). -/
def pathCost (grid : Grid) (p : List HexCoord) : Nat :=
  (p.map (stepCost grid)).sum

/-- Path reconstruction by backtracking `cameFrom` from the goal
(`while (currKey !== startKey) { path.unshift(...); ... }`): the source
loop terminates because the parent pointers of any reachable search state
are acyclic; the embedding bounds the walk by a fuel that the caller sets
larger than the parent map, which never changes the result on acyclic
maps. -/
def reconstructPath (cameFrom : List (HexCoord × HexCoord)) (startC : HexCoord) :
    Nat → HexCoord → List HexCoord
  | 0, _ => []
  | fuel + 1, curr =>
    if curr = startC then []
    else
      match List.lookup curr cameFrom with
      | none => [curr]
      | some parent => reconstructPath cameFrom startC fuel parent ++ [curr]

/-- One relaxation of `neighbor` from `currentKey` (the body of the
`for (const neighbor of neighbors)` loop): obstacle, rank and jump checks,
then the cost update of `cameFrom`/`gScore` and the `openSet` push.  The
state is `(openSet, cameFrom, gScore)`. -/
def relaxNeighbor (grid : Grid) (rank : Nat) (obsKeys : List HexCoord)
    (endC : HexCoord) (currentKey : HexCoord) (currentLevel : Nat)
    (st : List HeapEntry × List (HexCoord × HexCoord) × List (HexCoord × Nat))
    (neighbor : HexCoord) :
    List HeapEntry × List (HexCoord × HexCoord) × List (HexCoord × Nat) :=
  if neighbor ∈ obsKeys then st
  else
    match grid.get neighbor with
    | some neighborHex =>
      if neighborHex.maxLevel > rank then st
      else if ((currentLevel : Int) - (neighborHex.maxLevel : Int)).natAbs > 1 then st
      else
        let moveCost := if neighborHex.maxLevel ≥ 2 then neighborHex.maxLevel else 1
        relaxUpdate st moveCost
    | none =>
      if ((currentLevel : Int) - (0 : Int)).natAbs > 1 then st
      else relaxUpdate st 1
where
  /-- The `tentativeG < gScore` update.  A missing `gScore` for the
  current node stands for `Infinity` in the source, making the tentative
  cost infinite: no update happens. -/
  relaxUpdate (st : List HeapEntry × List (HexCoord × HexCoord) × List (HexCoord × Nat))
      (moveCost : Nat) :
      List HeapEntry × List (HexCoord × HexCoord) × List (HexCoord × Nat) :=
    match List.lookup currentKey st.2.2 with
    | none => st
    | some gCurrent =>
      let tentativeG := gCurrent + moveCost
      let better : Bool := match List.lookup neighbor st.2.2 with
        | some gOld => decide (tentativeG < gOld)
        | none => true
      if better then
        ((PQpush st.1 neighbor (tentativeG + cubeDistance neighbor endC)),
         ((neighbor, currentKey) :: st.2.1),
         ((neighbor, tentativeG) :: st.2.2))
      else st

/-- The A* main loop.  `fuel` carries the remaining iteration budget
(`MAX_SEARCH_ITERATIONS + 1` at entry): the source's
`if (iterations++ > MAX_SEARCH_ITERATIONS) return null` aborts the
(fuel+1)-th iteration, which the fuel-0 case models. -/
def astarLoop (cfg : SafetyConfig) (grid : Grid) (rank : Nat)
    (obsKeys : List HexCoord) (startC endC : HexCoord) :
    Nat → List HeapEntry → List (HexCoord × HexCoord) → List (HexCoord × Nat) →
    Option (List HexCoord)
  | 0, _, _, _ => none
  | fuel + 1, openSet, cameFrom, gScore =>
    match PQpop openSet with
    | none => none
    | some (current, openRest) =>
      let currentKey := current.1
      if (List.lookup currentKey gScore).getD 0 > cfg.maxPathLength then
        astarLoop cfg grid rank obsKeys startC endC fuel openRest cameFrom gScore
      else if currentKey = endC then
        some (reconstructPath cameFrom startC (cameFrom.length + 1) endC)
      else
        let currentLevel := match grid.get currentKey with
          | some hex => hex.maxLevel
          | none => 0
        let st := (getNeighbors currentKey.q currentKey.r).foldl
          (relaxNeighbor grid rank obsKeys endC currentKey currentLevel)
          (openRest, cameFrom, gScore)
        astarLoop cfg grid rank obsKeys startC endC fuel st.1 st.2.1 st.2.2

/-- `findPath` from src/services/hexUtils.ts: the immediate checks
(degenerate start=end, the straight-line distance cap, the obstructed
destination), then A* from the singleton open set. -/
def findPath (cfg : SafetyConfig) (start finish : HexCoord) (grid : Grid)
    (rank : Nat) (obstacles : List HexCoord) : Option (List HexCoord) :=
  if start = finish then some []
  else if cubeDistance start finish > cfg.maxPathLength then none
  else if finish ∈ obstacles then none
  else
    astarLoop cfg grid rank obstacles start finish
      (cfg.maxSearchIterations + 1)
      (PQpush [] start (cubeDistance start finish))
      []
      [(start, 0)]

/-! ## Verification scaffolding for the A* optimality claim

These definitions are not part of the source program; they are the
notions the straight-line optimality proof quantifies over. -/

/-- The `j`-th point of the straight line from `a` in direction `d`. -/
def linePoint (a d : HexCoord) (j : Nat) : HexCoord :=
  ⟨a.q + j * d.q, a.r + j * d.r⟩

/-- The `(2k+1) × (2k+1)` coordinate square centered at `a`: a finite
superset of every node the search can reach with an f-score of at most
`k`. -/
def squareAround (a : HexCoord) (k : Nat) : List HexCoord :=
  (List.range (2 * k + 1)).flatMap fun (i : Nat) =>
    (List.range (2 * k + 1)).map fun (j : Nat) =>
      ⟨a.q - k + (i : Int), a.r - k + (j : Int)⟩

/-- The binary-heap order of the source's `PriorityQueue`: every non-root
slot is at least as heavy as its parent slot. -/
def heapParentLe (l : List HeapEntry) : Prop :=
  ∀ i e p, 0 < i → l.get? i = some e → l.get? ((i - 1) / 2) = some p →
    p.2 ≤ e.2

/-- The loop measure for the straight-line scenario: the number of open
entries with weight at most `k`, plus the number of square nodes not yet
relaxed to their optimal g-score.  Every non-final iteration strictly
decreases it. -/
def astarMeasure (a : HexCoord) (k : Nat) (openSet : List HeapEntry)
    (gScore : List (HexCoord × Nat)) : Nat :=
  (openSet.filter fun e => e.2 ≤ k).length +
  ((squareAround a k).filter fun p =>
    !(List.lookup p gScore == some (cubeDistance a p))).length

/-- The A* loop invariant for the straight-line scenario: the heap is
ordered; the start has g-score 0; g-scores dominate true distances;
every non-start scored node has a parent edge that pays for it; every
open entry's weight covers its node's g-score plus the heuristic; and
some line point with optimal g-score `j` has a live entry of weight `k`
while no later line point is optimally scored yet. -/
structure AStarInv (grid : Grid) (a b dir : HexCoord) (k : Nat)
    (openSet : List HeapEntry) (cameFrom : List (HexCoord × HexCoord))
    (gScore : List (HexCoord × Nat)) : Prop where
  heap : heapParentLe openSet
  gA : List.lookup a gScore = some 0
  gLower : ∀ p g, List.lookup p gScore = some g → cubeDistance a p ≤ g
  parent : ∀ p g, p ≠ a → List.lookup p gScore = some g →
    ∃ c gc, List.lookup p cameFrom = some c ∧ p ∈ getNeighbors c.q c.r ∧
      List.lookup c gScore = some gc ∧ gc + stepCost grid p ≤ g
  entries : ∀ e ∈ openSet, ∃ gp, List.lookup e.1 gScore = some gp ∧
    gp + cubeDistance e.1 b ≤ e.2
  frontier : ∃ j, j ≤ k ∧ List.lookup (linePoint a dir j) gScore = some j ∧
    (linePoint a dir j, k) ∈ openSet ∧
    ∀ i, j < i → i ≤ k → List.lookup (linePoint a dir i) gScore ≠ some i

/-! ## Sample data for concrete witnesses -/

/-- A sample player entity. -/
def samplePlayer : Entity :=
  { id := "player-1", type := EntityType.PLAYER, state := EntityState.IDLE
    q := 0, r := 0, playerLevel := 1, coins := 0, totalCoinsEarned := 0
    moves := 0, recentUpgrades := ["0,1", "1,0", "1,1"], movementQueue := [] }

/-- A sample bot entity. -/
def sampleBot : Entity :=
  { id := "bot-1", type := EntityType.BOT, state := EntityState.IDLE
    q := 0, r := 2, playerLevel := 0, coins := 0, totalCoinsEarned := 0
    moves := 0, recentUpgrades := [], movementQueue := []
    memory := some {} }

/-- A sample level-1 hex at the origin with in-progress growth to level 2. -/
def sampleHexL1 : Hex :=
  { id := "0,0", q := 0, r := 0, currentLevel := 1, maxLevel := 1, progress := 0 }

/-- A sample grid: the origin hex plus two level-1 supports. -/
def sampleGrid : Grid :=
  [(⟨0, 0⟩, sampleHexL1),
   (⟨1, 0⟩, { id := "1,0", q := 1, r := 0, currentLevel := 1, maxLevel := 1, progress := 0 }),
   (⟨-1, 0⟩, { id := "-1,0", q := -1, r := 0, currentLevel := 1, maxLevel := 1, progress := 0 })]

/-- A fully built hex at the 99 cap. -/
def sampleHex99 : Hex :=
  { id := "0,0", q := 0, r := 0, currentLevel := 99, maxLevel := 99, progress := 0 }

/-- A sample session at state version 5. -/
def sampleSession : SessionState :=
  { stateVersion := 5
    winCondition := some { type := WinType.WEALTH, target := 100 }
    grid := sampleGrid
    player := samplePlayer
    bots := [sampleBot]
    gameStatus := GameStatus.PLAYING
    messageLog := [] }

/-- A sample world index for the sample session. -/
def sampleIndex : WorldIndex :=
  { grid := sampleGrid, entities := [samplePlayer, sampleBot] }

/-- The sample session with a player who has reached the WEALTH target. -/
def sampleWinSession : SessionState :=
  { sampleSession with player := { samplePlayer with totalCoinsEarned := 100 } }

end HexQuest

namespace HexQuest

/-! # Theorems -/

/-! ## String-containment helper lemmas -/

theorem charsPrefix_append (p s t : List Char) (h : charsPrefix p s = true) :
    charsPrefix p (s ++ t) = true := by
  induction p generalizing s with
  | nil => rfl
  | cons a p ih =>
    cases s with
    | nil => simp [charsPrefix] at h
    | cons b s =>
      simp only [charsPrefix, Bool.and_eq_true] at h ⊢
      exact ⟨h.1, ih s h.2⟩

theorem charsWithin_of_prefix (p s : List Char) (h : charsPrefix p s = true) :
    charsWithin p s = true := by
  cases s with
  | nil => simpa [charsWithin] using h
  | cons b rest => simp [charsWithin, h]

/-- Footing for "reason contains PAT" goals: a string that starts with a
string that `PAT` prefixes contains `PAT`. -/
theorem strContains_left (s t pat : String)
    (h : charsPrefix pat.toList s.toList = true) :
    strContains (s ++ t) pat = true := by
  unfold strContains
  have hl : (s ++ t).toList = s.toList ++ t.toList := by
    simp [String.toList, String.data_append]
  rw [hl]
  exact charsWithin_of_prefix _ _ (charsPrefix_append _ _ _ h)

/-! ## Geometry helper lemmas -/

/-- A hex is not among its own six neighbors. -/
theorem center_not_mem_getNeighbors (q r : Int) :
    (⟨q, r⟩ : HexCoord) ∉ getNeighbors q r := by
  simp only [getNeighbors, hexDirections, List.map_cons, List.map_nil,
    List.mem_cons, List.not_mem_nil, or_false, HexCoord.mk.injEq]
  omega

/-! ## The growth rule ladder: shared unfolding lemma -/

/-- When the cap, recovery, acquisition, cycle-lock and rank-gate rules all
fall through, `checkGrowthCondition` reduces to the staircase check. -/
theorem checkGrowth_staircase_eq (h : Hex) (e : Entity) (nb : List HexCoord)
    (g : Grid) (occ : List HexCoord) (qs : Nat)
    (hcap : h.maxLevel < 99)
    (hrec : h.maxLevel < h.currentLevel + 1)
    (hacq : h.currentLevel + 1 ≠ 1)
    (hcyc : qs ≤ e.recentUpgrades.length)
    (hrank : h.currentLevel ≤ e.playerLevel) :
    checkGrowthCondition (some h) e nb g occ qs =
      (if (supportNeighbors h nb g).length < 2 then
        { canGrow := false
          reason := some s!"NEED 2 SUPPORTS (EXACTLY L{h.maxLevel})" }
      else if ((supportNeighbors h nb g).filter (isOccupiedCoord occ)).length > 1 then
        { canGrow := false, reason := some "SUPPORTS BLOCKED" }
      else
        { canGrow := true }) := by
  simp only [checkGrowthCondition]
  rw [if_neg (show ¬(h.maxLevel ≥ 99) by omega),
    if_neg (show ¬(h.currentLevel + 1 ≤ h.maxLevel) by omega),
    if_neg hacq,
    if_neg (show ¬(h.currentLevel + 1 > 1 ∧ e.recentUpgrades.length < qs) by omega),
    if_neg (show ¬(e.playerLevel < h.currentLevel + 1 - 1) by omega),
    if_pos (show h.currentLevel + 1 > 1 by omega)]

/-! ## C1 -/

/-- C1: for growth to a next level greater than 1 with all earlier ladder
rules falling through, `checkGrowthCondition` requires at least two
neighbors whose `maxLevel` equals the hex's `maxLevel` exactly (a
higher-tier neighbor never qualifies), denying with a reason starting
"NEED 2 SUPPORTS" otherwise; among qualifying supports more than one
occupied support denies with "SUPPORTS BLOCKED", at most one occupied
support allows growth, and when the climbing entity stands on the target
hex itself its own position never affects the occupied-support count. -/
theorem growth_staircase_support_rule (h : Hex) (e : Entity)
    (nb : List HexCoord) (g : Grid) (occ : List HexCoord) (qs : Nat)
    (hcap : h.maxLevel < 99)
    (hrec : h.maxLevel < h.currentLevel + 1)
    (hacq : h.currentLevel + 1 ≠ 1)
    (hcyc : qs ≤ e.recentUpgrades.length)
    (hrank : h.currentLevel ≤ e.playerLevel) :
    ((supportNeighbors h nb g).length < 2 →
      (checkGrowthCondition (some h) e nb g occ qs).canGrow = false ∧
      ∃ rsn, (checkGrowthCondition (some h) e nb g occ qs).reason = some rsn ∧
        strContains rsn "NEED 2 SUPPORTS" = true) ∧
    (2 ≤ (supportNeighbors h nb g).length →
      1 < ((supportNeighbors h nb g).filter (isOccupiedCoord occ)).length →
      checkGrowthCondition (some h) e nb g occ qs =
        { canGrow := false, reason := some "SUPPORTS BLOCKED" }) ∧
    (2 ≤ (supportNeighbors h nb g).length →
      ((supportNeighbors h nb g).filter (isOccupiedCoord occ)).length ≤ 1 →
      (checkGrowthCondition (some h) e nb g occ qs).canGrow = true) ∧
    (∀ n ∈ nb, ∀ nh, g.get n = some nh → h.maxLevel < nh.maxLevel →
      n ∉ supportNeighbors h nb g) ∧
    (nb = getNeighbors h.q h.r → e.pos = ⟨h.q, h.r⟩ →
      ((supportNeighbors h nb g).filter (isOccupiedCoord occ)).length =
      ((supportNeighbors h nb g).filter
        (isOccupiedCoord (occ.filter fun o => !(o == e.pos)))).length) := by
  have heq := checkGrowth_staircase_eq h e nb g occ qs hcap hrec hacq hcyc hrank
  refine ⟨?_, ?_, ?_, ?_, ?_⟩
  · intro hlt
    rw [heq, if_pos hlt]
    refine ⟨rfl, _, rfl, ?_⟩
    show strContains ("NEED 2 SUPPORTS (EXACTLY L" ++ toString h.maxLevel ++ ")") _ = true
    rw [String.append_assoc]
    exact strContains_left _ _ _ (by decide)
  · intro hge hocc
    rw [heq, if_neg (by omega), if_pos hocc]
  · intro hge hocc
    rw [heq, if_neg (by omega), if_neg (by omega)]
  · intro n hn nh hget hlt hmem
    have := List.of_mem_filter hmem
    rw [hget] at this
    simp only [beq_iff_eq] at this
    omega
  · intro hnb hpos
    apply congrArg
    apply List.filter_congr
    intro s hs
    have hsnb : s ∈ nb := List.mem_of_mem_filter hs
    have hne : s ≠ e.pos := by
      rw [hpos]
      intro hEq
      rw [hnb, hEq] at hsnb
      exact center_not_mem_getNeighbors h.q h.r hsnb
    unfold isOccupiedCoord
    rw [Bool.eq_iff_iff, List.any_eq_true, List.any_eq_true]
    constructor
    · rintro ⟨o, ho, hmatch⟩
      refine ⟨o, ?_, hmatch⟩
      rw [List.mem_filter]
      refine ⟨ho, ?_⟩
      have hos : o = s := by
        simp only [Bool.and_eq_true, beq_iff_eq] at hmatch
        cases o; cases s; simp_all
      rw [hos]
      simp [hne]
    · rintro ⟨o, ho, hmatch⟩
      exact ⟨o, List.mem_of_mem_filter ho, hmatch⟩

/-- Witness for C1 at a concrete configuration: a level-1 hex with two
exact-match supports, one of them occupied, allows growth to level 2. -/
theorem growth_staircase_support_rule_witness :
    (2 ≤ (supportNeighbors sampleHexL1 (getNeighbors 0 0) sampleGrid).length →
      ((supportNeighbors sampleHexL1 (getNeighbors 0 0) sampleGrid).filter
        (isOccupiedCoord [⟨1, 0⟩])).length ≤ 1 →
      (checkGrowthCondition (some sampleHexL1) samplePlayer (getNeighbors 0 0)
        sampleGrid [⟨1, 0⟩] 3).canGrow = true) ∧
    (checkGrowthCondition (some sampleHexL1) samplePlayer (getNeighbors 0 0)
      sampleGrid [⟨1, 0⟩] 3).canGrow = true :=
  have main := growth_staircase_support_rule sampleHexL1 samplePlayer
    (getNeighbors 0 0) sampleGrid [⟨1, 0⟩] 3
    (by decide) (by decide) (by decide) (by decide) (by decide)
  ⟨main.2.2.1, main.2.2.1 (by decide) (by decide)⟩

/-! ## C2 -/

/-- C2 counterexample: the claim asserts a "CYCLE INCOMPLETE" denial for
every hex whenever the next level exceeds 1, neither bypass applies and
the queue is short — but at a fully built hex sitting at the 99 cap all
of those conditions hold and the denial reason is "MAX LEVEL" instead
(the cap rule precedes the cycle lock in the ladder). -/
theorem growth_cycle_lock_cap_counterexample :
    sampleHex99.currentLevel + 1 > 1 ∧
    ¬(sampleHex99.currentLevel + 1 ≤ sampleHex99.maxLevel) ∧
    sampleHex99.currentLevel + 1 ≠ 1 ∧
    sampleBot.recentUpgrades.length < 3 ∧
    checkGrowthCondition (some sampleHex99) sampleBot [] ([] : Grid) [] 3 =
      { canGrow := false, reason := some "MAX LEVEL" } ∧
    strContains "MAX LEVEL" "CYCLE INCOMPLETE" = false := by
  decide

/-- C2 (amended): for every hex below the 99 cap, when the target level
(currentLevel + 1) is greater than 1 and neither the recovery nor the
acquisition bypass applies, `checkGrowthCondition` with
`recentUpgrades.length < requiredQueueSize` returns `canGrow = false`
with a reason containing "CYCLE INCOMPLETE", regardless of the entity's
rank and of the neighbor support configuration. -/
theorem growth_cycle_lock_rule (h : Hex) (e : Entity) (nb : List HexCoord)
    (g : Grid) (occ : List HexCoord) (qs : Nat)
    (hcap : h.maxLevel < 99)
    (hrec : h.maxLevel < h.currentLevel + 1)
    (hacq : h.currentLevel + 1 ≠ 1)
    (hlen : e.recentUpgrades.length < qs) :
    (checkGrowthCondition (some h) e nb g occ qs).canGrow = false ∧
    ∃ rsn, (checkGrowthCondition (some h) e nb g occ qs).reason = some rsn ∧
      strContains rsn "CYCLE INCOMPLETE" = true := by
  have heq : checkGrowthCondition (some h) e nb g occ qs =
      { canGrow := false
        reason := some s!"CYCLE INCOMPLETE ({e.recentUpgrades.length}/{qs})" } := by
    simp only [checkGrowthCondition]
    rw [if_neg (show ¬(h.maxLevel ≥ 99) by omega),
      if_neg (show ¬(h.currentLevel + 1 ≤ h.maxLevel) by omega),
      if_neg hacq,
      if_pos (show h.currentLevel + 1 > 1 ∧ e.recentUpgrades.length < qs by
        exact ⟨by omega, hlen⟩)]
  rw [heq]
  refine ⟨rfl, _, rfl, ?_⟩
  show strContains
    ("CYCLE INCOMPLETE (" ++ toString e.recentUpgrades.length ++ "/" ++
      toString qs ++ ")") _ = true
  rw [String.append_assoc, String.append_assoc, String.append_assoc]
  exact strContains_left _ _ _ (by decide)

/-- Witness for C2 (amended) at a concrete input: a level-1 hex evaluated
for a bot with an empty cycle queue is denied with a reason containing
"CYCLE INCOMPLETE". -/
theorem growth_cycle_lock_rule_witness :
    (checkGrowthCondition (some sampleHexL1) sampleBot (getNeighbors 0 0)
      sampleGrid [] 3).canGrow = false ∧
    ∃ rsn, (checkGrowthCondition (some sampleHexL1) sampleBot (getNeighbors 0 0)
      sampleGrid [] 3).reason = some rsn ∧
      strContains rsn "CYCLE INCOMPLETE" = true :=
  growth_cycle_lock_rule sampleHexL1 sampleBot (getNeighbors 0 0) sampleGrid [] 3
    (by decide) (by decide) (by decide) (by decide)

/-! ## C3 -/

/-- C3: for every hex below the 99 cap and every entity,
`checkGrowthCondition` allows growth unconditionally when the next level
is at most `maxLevel` (recovery) and when the next level is 1
(acquisition); in particular any hex at `currentLevel` 0 always allows
growth. -/
theorem growth_recovery_acquisition_rule (h : Hex) (e : Entity)
    (nb : List HexCoord) (g : Grid) (occ : List HexCoord) (qs : Nat)
    (hcap : h.maxLevel < 99) :
    (h.currentLevel + 1 ≤ h.maxLevel →
      (checkGrowthCondition (some h) e nb g occ qs).canGrow = true) ∧
    (h.currentLevel + 1 = 1 →
      (checkGrowthCondition (some h) e nb g occ qs).canGrow = true) ∧
    (h.currentLevel = 0 →
      (checkGrowthCondition (some h) e nb g occ qs).canGrow = true) := by
  have hcase : ∀ hTarget : h.currentLevel + 1 = 1,
      (checkGrowthCondition (some h) e nb g occ qs).canGrow = true := by
    intro hTarget
    simp only [checkGrowthCondition]
    rw [if_neg (show ¬(h.maxLevel ≥ 99) by omega)]
    by_cases hr : h.currentLevel + 1 ≤ h.maxLevel
    · rw [if_pos hr]
    · rw [if_neg hr, if_pos hTarget]
  refine ⟨?_, hcase, fun h0 => hcase (by omega)⟩
  intro hr
  simp only [checkGrowthCondition]
  rw [if_neg (show ¬(h.maxLevel ≥ 99) by omega), if_pos hr]

/-- Witness for C3 at concrete inputs: a virgin level-0 hex is growable by
a bot with no cycle queue, and a decayed hex (`currentLevel` below
`maxLevel`) is recoverable by the same bot. -/
theorem growth_recovery_acquisition_rule_witness :
    (checkGrowthCondition (some (freshHex ⟨0, 0⟩)) sampleBot [] ([] : Grid)
      [] 3).canGrow = true ∧
    (checkGrowthCondition
      (some { id := "0,0", q := 0, r := 0, currentLevel := 0, maxLevel := 2,
              progress := 0 })
      sampleBot [] ([] : Grid) [] 3).canGrow = true :=
  ⟨(growth_recovery_acquisition_rule (freshHex ⟨0, 0⟩) sampleBot [] ([] : Grid)
      [] 3 (by decide)).2.2 (by decide),
   (growth_recovery_acquisition_rule
      { id := "0,0", q := 0, r := 0, currentLevel := 0, maxLevel := 2,
        progress := 0 }
      sampleBot [] ([] : Grid) [] 3 (by decide)).1 (by decide)⟩

/-! ## C5 -/

/-- `meetsWin` in arithmetic form. -/
theorem meetsWin_iff (wc : WinCondition) (e : Entity) :
    meetsWin wc e = true ↔
      (wc.type = WinType.WEALTH ∧ wc.target ≤ e.totalCoinsEarned) ∨
      (wc.type = WinType.DOMINATION ∧ wc.target ≤ e.playerLevel) := by
  cases htype : wc.type <;>
    simp [meetsWin, htype, ge_iff_le]

/-- C5: a VictorySystem pass on a PLAYING state with a configured win
condition evaluates the player first — a player meeting the condition
(WEALTH: totalCoinsEarned ≥ target; DOMINATION: playerLevel ≥ target)
yields VICTORY regardless of the bots; otherwise a winning bot yields
DEFEAT; and a pass on a VICTORY or DEFEAT state changes nothing (the
transition is terminal). -/
theorem victory_player_first_and_terminal (s : SessionState) (wc : WinCondition)
    (hwc : s.winCondition = some wc) (hplay : s.gameStatus = GameStatus.PLAYING) :
    (((wc.type = WinType.WEALTH ∧ wc.target ≤ s.player.totalCoinsEarned) ∨
      (wc.type = WinType.DOMINATION ∧ wc.target ≤ s.player.playerLevel)) →
      (victoryUpdate s).1.gameStatus = GameStatus.VICTORY) ∧
    ((¬ ((wc.type = WinType.WEALTH ∧ wc.target ≤ s.player.totalCoinsEarned) ∨
        (wc.type = WinType.DOMINATION ∧ wc.target ≤ s.player.playerLevel))) →
      (∃ b ∈ s.bots,
        (wc.type = WinType.WEALTH ∧ wc.target ≤ b.totalCoinsEarned) ∨
        (wc.type = WinType.DOMINATION ∧ wc.target ≤ b.playerLevel)) →
      (victoryUpdate s).1.gameStatus = GameStatus.DEFEAT) ∧
    (∀ s' : SessionState,
      s'.gameStatus = GameStatus.VICTORY ∨ s'.gameStatus = GameStatus.DEFEAT →
      victoryUpdate s' = (s', [])) := by
  refine ⟨?_, ?_, ?_⟩
  · intro hwin
    have hp : meetsWin wc s.player = true := (meetsWin_iff wc s.player).mpr hwin
    simp only [victoryUpdate, hwc, hplay]
    rw [if_neg (by simp), if_pos hp]
  · intro hnowin hbot
    have hp : meetsWin wc s.player = false := by
      rcases hmw : meetsWin wc s.player with _ | _
      · rfl
      · exact absurd ((meetsWin_iff wc s.player).mp hmw) hnowin
    have hb : s.bots.any (meetsWin wc) = true := by
      rw [List.any_eq_true]
      obtain ⟨b, hbmem, hbwin⟩ := hbot
      exact ⟨b, hbmem, (meetsWin_iff wc b).mpr hbwin⟩
    simp only [victoryUpdate, hwc, hplay]
    rw [if_neg (by simp), if_neg (by simp [hp]), if_pos hb]
  · intro s' hterm
    have hne : s'.gameStatus ≠ GameStatus.PLAYING := by
      rcases hterm with hterm | hterm <;> simp [hterm]
    cases hw : s'.winCondition with
    | none => simp [victoryUpdate, hw]
    | some wc' => simp [victoryUpdate, hw, if_pos hne]

/-- Witness for C5 at a concrete input: a PLAYING session whose player has
earned the WEALTH target of 100 transitions to VICTORY, and a further pass
on the resulting VICTORY state changes nothing. -/
theorem victory_player_first_and_terminal_witness :
    (victoryUpdate sampleWinSession).1.gameStatus = GameStatus.VICTORY ∧
    victoryUpdate { sampleWinSession with gameStatus := GameStatus.VICTORY } =
      ({ sampleWinSession with gameStatus := GameStatus.VICTORY }, []) :=
  have main := victory_player_first_and_terminal sampleWinSession
    { type := WinType.WEALTH, target := 100 } rfl rfl
  ⟨main.1 (Or.inl ⟨rfl, by decide⟩), main.2.2 _ (Or.inl rfl)⟩

/-! ## C4 -/

/-- C4: an externally submitted action carrying a stateVersion different
from the session's current version is rejected by the engine with
`ok = false` and a reason containing "STALE STATE", and the committed
session state afterwards is exactly the state before submission (the
hypothesis that the actor exists keeps the rejection on the stale-state
path rather than the "Entity not found" path). -/
theorem stale_action_rejected_without_mutation (s : SessionState)
    (w : WorldIndex) (actorId : String) (action : GameAction) (v : Nat)
    (hactor : findActor s actorId ≠ none)
    (hv : action.stateVersion = some v)
    (hne : v ≠ s.stateVersion) :
    (engineApplyAction s w actorId action).2.ok = false ∧
    (∃ rsn, (engineApplyAction s w actorId action).2.reason = some rsn ∧
      strContains rsn "STALE STATE" = true) ∧
    (engineApplyAction s w actorId action).1 = s := by
  obtain ⟨actor, hfa⟩ : ∃ a, findActor s actorId = some a := by
    cases hfa : findActor s actorId with
    | none => exact absurd hfa hactor
    | some a => exact ⟨a, rfl⟩
  have hval : validateAction s w actorId action =
      { ok := false
        reason := some s!"STALE STATE (v{v} vs v{s.stateVersion})" } := by
    simp only [validateAction, hfa, hv]
    rw [if_pos hne]
  have hsnd : (applyActionProcessor s w actorId action).2 =
      { ok := false
        reason := some s!"STALE STATE (v{v} vs v{s.stateVersion})" } := by
    simp only [applyActionProcessor, hfa, hval]
    split
    · split <;> rfl
    · next hcontra => simp at hcontra
  have hok : (applyActionProcessor s w actorId action).2.ok = false := by
    rw [hsnd]
  have heng : engineApplyAction s w actorId action =
      (s, (applyActionProcessor s w actorId action).2) := by
    simp only [engineApplyAction]
    rw [if_neg (by rw [hok]; exact Bool.false_ne_true)]
  rw [heng]
  refine ⟨hok, ⟨_, by rw [hsnd], ?_⟩, rfl⟩
  show strContains
    ("STALE STATE (v" ++ toString v ++ " vs v" ++ toString s.stateVersion ++ ")")
    _ = true
  rw [String.append_assoc, String.append_assoc, String.append_assoc]
  exact strContains_left _ _ _ (by decide)

/-- Witness for C4 at a concrete input: a WAIT carrying version 4 against
the sample session at version 5 is rejected as stale and the committed
state is unchanged. -/
theorem stale_action_rejected_without_mutation_witness :
    (engineApplyAction sampleSession sampleIndex "player-1"
      (GameAction.WAIT (some 4))).2.ok = false ∧
    (∃ rsn, (engineApplyAction sampleSession sampleIndex "player-1"
      (GameAction.WAIT (some 4))).2.reason = some rsn ∧
      strContains rsn "STALE STATE" = true) ∧
    (engineApplyAction sampleSession sampleIndex "player-1"
      (GameAction.WAIT (some 4))).1 = sampleSession :=
  stale_action_rejected_without_mutation sampleSession sampleIndex "player-1"
    (GameAction.WAIT (some 4)) 4 (by decide) rfl (by decide)

/-! ## C8 -/

/-- The cycle queue after a level-up, in closed form: pushed exactly on a
level-1 acquisition that raises `maxLevel`, untouched otherwise. -/
theorem growthLevelUp_recentUpgrades (qs : Nat) (e : Entity) (hex : Hex) :
    (growthLevelUpEntity qs e hex).recentUpgrades =
      if hex.maxLevel < hex.currentLevel + 1 ∧ hex.currentLevel + 1 = 1 then
        pushRecentUpgrade e.recentUpgrades hex.id qs
      else e.recentUpgrades := by
  simp only [growthLevelUpEntity]
  by_cases h1 : hex.maxLevel < hex.currentLevel + 1
  · by_cases h2 : hex.currentLevel + 1 = 1
    · rw [if_pos h1, if_pos h2, if_pos ⟨h1, h2⟩]
    · rw [if_pos h1, if_neg h2, if_neg fun hc => h2 hc.2]
  · rw [if_neg h1, if_neg fun hc => h1 hc.1]

/-- One push never grows the queue beyond the configured size. -/
theorem pushRecentUpgrade_length (queue : List String) (hexId : String)
    (qs : Nat) (h : queue.length ≤ qs) :
    (pushRecentUpgrade queue hexId qs).length ≤ qs := by
  simp only [pushRecentUpgrade]
  split
  · simp only [List.length_tail, List.length_append, List.length_cons,
      List.length_nil]
    omega
  · next hle =>
    simp only [List.length_append, List.length_cons, List.length_nil] at hle ⊢
    omega

/-- C8: over any sequence of completed level-ups the cycle queue never
exceeds the configured size; when the queue is full a push evicts the
oldest element first (FIFO); and a hex id is pushed exactly on a level-up
that reaches new tier 1 (a first acquisition raising `maxLevel` to 1),
never for deeper tiers or recovery level-ups. -/
theorem recent_upgrades_queue_invariant (qs : Nat) :
    (∀ (e : Entity) (hexes : List Hex),
      e.recentUpgrades.length ≤ qs →
      ((hexes.foldl (growthLevelUpEntity qs) e).recentUpgrades).length ≤ qs) ∧
    (∀ (queue : List String) (hexId : String),
      0 < queue.length → qs ≤ queue.length →
      pushRecentUpgrade queue hexId qs = queue.tail ++ [hexId]) ∧
    (∀ (e : Entity) (hex : Hex),
      (hex.currentLevel = 0 → hex.maxLevel = 0 →
        (growthLevelUpEntity qs e hex).recentUpgrades =
          pushRecentUpgrade e.recentUpgrades hex.id qs) ∧
      ((hex.currentLevel ≠ 0 ∨ hex.maxLevel ≠ 0) →
        (growthLevelUpEntity qs e hex).recentUpgrades = e.recentUpgrades)) := by
  refine ⟨?_, ?_, ?_⟩
  · intro e hexes
    induction hexes generalizing e with
    | nil => exact fun h => h
    | cons hex rest ih =>
      intro hlen
      rw [List.foldl_cons]
      apply ih
      rw [growthLevelUp_recentUpgrades]
      split
      · exact pushRecentUpgrade_length _ _ _ hlen
      · exact hlen
  · intro queue hexId hpos hfull
    cases queue with
    | nil => simp at hpos
    | cons a rest =>
      simp only [List.length_cons] at hfull
      simp only [pushRecentUpgrade]
      rw [if_pos (by
        simp only [List.length_append, List.length_cons, List.length_nil]
        omega)]
      simp
  · intro e hex
    constructor
    · intro hc hm
      rw [growthLevelUp_recentUpgrades, if_pos (by omega)]
    · intro hne
      rw [growthLevelUp_recentUpgrades, if_neg (by omega)]

/-- Witness for C8 at concrete inputs: two acquisitions starting from a
full queue of size 3 keep the length at 3; a push onto a full queue
evicts the oldest entry; and a deeper-tier level-up leaves the queue
untouched. -/
theorem recent_upgrades_queue_invariant_witness :
    ((([freshHex ⟨2, 2⟩, freshHex ⟨3, 3⟩].foldl (growthLevelUpEntity 3)
      samplePlayer).recentUpgrades).length ≤ 3) ∧
    pushRecentUpgrade ["a", "b", "c"] "d" 3 = ["b", "c"] ++ ["d"] ∧
    (growthLevelUpEntity 3 samplePlayer sampleHexL1).recentUpgrades =
      samplePlayer.recentUpgrades :=
  have main := recent_upgrades_queue_invariant 3
  ⟨main.1 samplePlayer [freshHex ⟨2, 2⟩, freshHex ⟨3, 3⟩] (by decide),
   main.2.1 ["a", "b", "c"] "d" (by decide) (by decide),
   (main.2.2 samplePlayer sampleHexL1).2 (by decide)⟩

/-! ## C9 -/

/-- Grid update/lookup interaction. -/
theorem Grid.get_set (g : Grid) (c c' : HexCoord) (h : Hex) :
    (g.set c h).get c' = if c' = c then some h else g.get c' := by
  simp only [Grid.set, Grid.get, List.lookup]
  by_cases hc : c' = c
  · simp [hc]
  · have hbeq : (c' == c) = false := by simp [hc]
    simp [hbeq, hc]

/-- A successful growth check implies the hex is below the 99 cap. -/
theorem canGrow_maxLevel_lt (hex : Hex) (e : Entity) (nb : List HexCoord)
    (g : Grid) (occ : List HexCoord) (qs : Nat)
    (h : (checkGrowthCondition (some hex) e nb g occ qs).canGrow = true) :
    hex.maxLevel < 99 := by
  by_contra hge
  simp only [checkGrowthCondition] at h
  rw [if_pos (by omega)] at h
  simp at h

/-- Every committed grid write preserves the strengthened hex bounds. -/
theorem gridStep_preserves_inv {qs : Nat} {g g' : Grid}
    (hstep : GridStep qs g g') (hinv : GridInv g) : GridInv g' := by
  cases hstep with
  | levelUp c hex entity nb occ hget hcan hprog =>
    intro c' hex' hget'
    rw [Grid.get_set] at hget'
    split at hget'
    · cases hget'
      have hhex := hinv c hex hget
      have hcap := canGrow_maxLevel_lt hex entity nb g occ qs hcan
      unfold HexInv at hhex ⊢
      unfold levelUpHex
      simp only
      omega
    · exact hinv c' hex' hget'
  | tickProgress c hex entity nb occ hget hcan hprog =>
    intro c' hex' hget'
    rw [Grid.get_set] at hget'
    split at hget'
    · cases hget'
      have hhex := hinv c hex hget
      exact hhex
    · exact hinv c' hex' hget'
  | revealNew c hget =>
    intro c' hex' hget'
    rw [Grid.get_set] at hget'
    split at hget'
    · cases hget'
      unfold HexInv freshHex
      simp
    · exact hinv c' hex' hget'
  | revealExisting c hex hget =>
    intro c' hex' hget'
    rw [Grid.get_set] at hget'
    split at hget'
    · cases hget'
      exact hinv c hex hget
    · exact hinv c' hex' hget'

/-- C9: every hex of a grid reachable (by any sequence of committed grid
writes: growth level-ups, progress ticks and lazy reveals) from a grid
satisfying the hex bounds satisfies
`currentLevel ≤ maxLevel + 1` and `maxLevel ≤ 99`. -/
theorem hex_level_bounds_invariant (qs : Nat) (g0 g : Grid)
    (hinv : GridInv g0)
    (hreach : Relation.ReflTransGen (GridStep qs) g0 g) :
    ∀ c hex, g.get c = some hex →
      hex.currentLevel ≤ hex.maxLevel + 1 ∧ hex.maxLevel ≤ 99 := by
  have hg : GridInv g := by
    induction hreach with
    | refl => exact hinv
    | tail _ hstep ih => exact gridStep_preserves_inv hstep ih
  intro c hex hget
  have := hg c hex hget
  unfold HexInv at this
  omega

/-- Witness for C9 at a concrete input: the hex lazily created at the
origin by one reveal step from the empty grid satisfies the bounds. -/
theorem hex_level_bounds_invariant_witness :
    (freshHex ⟨0, 0⟩).currentLevel ≤ (freshHex ⟨0, 0⟩).maxLevel + 1 ∧
    (freshHex ⟨0, 0⟩).maxLevel ≤ 99 :=
  hex_level_bounds_invariant 3 ([] : Grid)
    (Grid.set ([] : Grid) (⟨0, 0⟩ : HexCoord) (freshHex ⟨0, 0⟩))
    (fun _ _ h => nomatch h)
    (Relation.ReflTransGen.single
      (GridStep.revealNew ([] : Grid) (⟨0, 0⟩ : HexCoord) rfl))
    ⟨0, 0⟩ (freshHex ⟨0, 0⟩) (by rw [Grid.get_set, if_pos rfl])

/-! ## C10 -/

/-- Unfolding equation for `movementPass` on a cons cell. -/
theorem movementPass_cons (e : Entity) (rest : List Entity)
    (occ : List HexCoord) (g : Grid) :
    movementPass (e :: rest) occ g =
      ((movementProcessEntity e occ g).1 ::
         (movementPass rest (movementProcessEntity e occ g).2.1
           (movementProcessEntity e occ g).2.2).1,
       (movementPass rest (movementProcessEntity e occ g).2.1
         (movementProcessEntity e occ g).2.2).2.1,
       (movementPass rest (movementProcessEntity e occ g).2.1
         (movementProcessEntity e occ g).2.2).2.2) := rfl

/-- Behavioral case split for one entity: either nothing moves (position
and occupancy untouched), or the entity steps to a coordinate that the
occupancy index reported free (or its own position), with the index
updated accordingly. -/
theorem movementProcessEntity_spec (e : Entity) (occ : List HexCoord)
    (g : Grid) :
    ((movementProcessEntity e occ g).1.pos = e.pos ∧
     (movementProcessEntity e occ g).2.1 = occ) ∨
    (∃ n : HexCoord,
      (movementProcessEntity e occ g).1.pos = n ∧
      (movementProcessEntity e occ g).2.1 = occUpdate occ e.pos n ∧
      (n ∉ occ ∨ n = e.pos)) := by
  unfold movementProcessEntity
  split
  · left; exact ⟨rfl, rfl⟩
  · split
    · split
      · left; exact ⟨rfl, rfl⟩
      · left; exact ⟨rfl, rfl⟩
    · next mq step tail heq =>
      split
      · left; exact ⟨rfl, rfl⟩
      · split
        · left; exact ⟨rfl, rfl⟩
        · next hguard =>
          right
          refine ⟨⟨step.q, step.r⟩, rfl, rfl, ?_⟩
          by_cases hmem : (⟨step.q, step.r⟩ : HexCoord) ∈ occ
          · right
            have hsame := fun hd => hguard ⟨hmem, hd⟩
            have hq : step.q = e.q := by
              by_contra hcon; exact hsame (Or.inl hcon)
            have hr : step.r = e.r := by
              by_contra hcon; exact hsame (Or.inr hcon)
            simp [Entity.pos, hq, hr]
          · left; exact hmem

/-- The sequential pass preserves the occupancy/positions correspondence:
`others` stands for the coordinates of everything outside the tail still
to be processed (entities processed earlier keep blocking later ones). -/
theorem movementPass_aux (ents : List Entity) (occ : List HexCoord) (g : Grid)
    (others : List HexCoord)
    (hiff : ∀ c, c ∈ occ ↔ c ∈ others ++ ents.map Entity.pos)
    (hnd : (others ++ ents.map Entity.pos).Nodup)
    (hond : occ.Nodup) :
    (∀ c, c ∈ (movementPass ents occ g).2.1 ↔
      c ∈ others ++ (movementPass ents occ g).1.map Entity.pos) ∧
    (others ++ (movementPass ents occ g).1.map Entity.pos).Nodup ∧
    (movementPass ents occ g).2.1.Nodup := by
  induction ents generalizing occ g others with
  | nil => exact ⟨hiff, hnd, hond⟩
  | cons e rest ih =>
    rw [movementPass_cons]
    simp only [List.map_cons]
    have hmid := (List.nodup_middle.mp hnd)
    rw [List.nodup_cons] at hmid
    have heposocc : e.pos ∈ occ := by
      rw [hiff]
      simp
    rcases movementProcessEntity_spec e occ g with ⟨hpos, hocc⟩ | ⟨n, hpos, hocc, hfree⟩
    · -- entity did not change position; occupancy untouched
      have ih2 := ih (movementProcessEntity e occ g).2.1
        (movementProcessEntity e occ g).2.2 (others ++ [e.pos])
        (by
          intro c
          rw [hocc, hiff]
          simp [List.append_assoc])
        (by
          rw [List.append_assoc]
          simpa using hnd)
        (by rw [hocc]; exact hond)
      refine ⟨?_, ?_, ih2.2.2⟩
      · intro c
        rw [(ih2.1 c)]
        simp [hpos, List.append_assoc]
      · have := ih2.2.1
        rw [List.append_assoc] at this
        simpa [hpos] using this
    · -- entity moved to n
      have hsplit : ∀ c, c ∈ occ → c ≠ e.pos →
          c ∈ others ∨ c ∈ rest.map Entity.pos := by
        intro c hcocc hcne
        rw [hiff] at hcocc
        simp only [List.map_cons, List.mem_append, List.mem_cons] at hcocc
        tauto
      have hback : ∀ c, c ∈ others ∨ c ∈ rest.map Entity.pos →
          c ∈ occ.erase e.pos := by
        intro c hc
        have hcocc : c ∈ occ := by
          rw [hiff]
          simp only [List.map_cons, List.mem_append, List.mem_cons]
          tauto
        have hcne : c ≠ e.pos := by
          intro hEq
          subst hEq
          apply hmid.1
          simpa using hc
        exact (hond.mem_erase_iff).mpr ⟨hcne, hcocc⟩
      have hiff2 : ∀ c, c ∈ occUpdate occ e.pos n ↔
          c ∈ (others ++ [n]) ++ (rest.map Entity.pos) := by
        intro c
        unfold occUpdate
        constructor
        · intro hc
          rcases List.mem_cons.mp hc with hc | hc
          · subst hc; simp
          · obtain ⟨hcne, hcocc⟩ := (hond.mem_erase_iff).mp hc
            have := hsplit c hcocc hcne
            simp only [List.mem_append, List.mem_singleton]
            tauto
        · intro hc
          simp only [List.mem_append, List.mem_singleton] at hc
          rcases hc with (hc | hc) | hc
          · exact List.mem_cons_of_mem _ (hback c (Or.inl hc))
          · subst hc; exact List.mem_cons_self _ _
          · exact List.mem_cons_of_mem _ (hback c (Or.inr hc))
      have hnd2 : ((others ++ [n]) ++ rest.map Entity.pos).Nodup := by
        have hshape : (others ++ [n]) ++ rest.map Entity.pos =
            others ++ n :: rest.map Entity.pos := by simp
        rw [hshape]
        rcases hfree with hfree | hfree
        · have hnotin : n ∉ others ++ rest.map Entity.pos := by
            intro hn
            apply hfree
            rw [hiff]
            simp only [List.map_cons, List.mem_append, List.mem_cons] at hn ⊢
            tauto
          exact List.nodup_middle.mpr (List.nodup_cons.mpr ⟨hnotin, hmid.2⟩)
        · subst hfree
          exact hnd
      have hond2 : (occUpdate occ e.pos n).Nodup := by
        unfold occUpdate
        refine List.nodup_cons.mpr ⟨?_, hond.erase e.pos⟩
        rcases hfree with hfree | hfree
        · intro hn
          exact hfree (List.mem_of_mem_erase hn)
        · subst hfree
          intro hn
          exact absurd rfl ((hond.mem_erase_iff).mp hn).1
      have ih2 := ih (movementProcessEntity e occ g).2.1
        (movementProcessEntity e occ g).2.2 (others ++ [n])
        (by intro c; rw [hocc]; exact hiff2 c)
        hnd2
        (by rw [hocc]; exact hond2)
      refine ⟨?_, ?_, ih2.2.2⟩
      · intro c
        rw [(ih2.1 c)]
        simp [hpos, List.append_assoc]
      · have := ih2.2.1
        rw [List.append_assoc] at this
        simpa [hpos] using this

/-- C10: a committed movement pass over entities occupying pairwise
distinct coordinates (with the occupancy index in sync with those
coordinates, as built per tick) leaves all entities on pairwise distinct
coordinates: a move into an occupied coordinate is cancelled, and the
index is updated immediately after each executed move so that entities
processed later in the same pass cannot double-claim a target. -/
theorem movement_no_double_occupancy (ents : List Entity)
    (occ : List HexCoord) (g : Grid)
    (hiff : ∀ c, c ∈ occ ↔ c ∈ ents.map Entity.pos)
    (hnd : (ents.map Entity.pos).Nodup)
    (hond : occ.Nodup) :
    ((movementPass ents occ g).1.map Entity.pos).Nodup := by
  have := movementPass_aux ents occ g []
    (by simpa using hiff) (by simpa using hnd) hond
  simpa using this.2.1

/-- Witness for C10 at a concrete input: the player queued to step from
the origin to (1,0) and a bot idling at (0,2) end the pass on distinct
coordinates. -/
theorem movement_no_double_occupancy_witness :
    ((movementPass
      [{ samplePlayer with movementQueue := [⟨1, 0, false⟩] }, sampleBot]
      [⟨0, 0⟩, ⟨0, 2⟩] sampleGrid).1.map Entity.pos).Nodup :=
  movement_no_double_occupancy
    [{ samplePlayer with movementQueue := [⟨1, 0, false⟩] }, sampleBot]
    [⟨0, 0⟩, ⟨0, 2⟩] sampleGrid
    (fun c => Iff.rfl) (by decide) (by decide)

/-! ## C6 -/

/-- C6 counterexample: the claim asserts that a destination inside the
obstacle set yields the failure sentinel for every call, but the
degenerate call with start = end returns the empty path first, even when
that coordinate is an obstacle. -/
theorem findpath_self_in_obstacles_counterexample :
    ((⟨0, 0⟩ : HexCoord) ∈ ([⟨0, 0⟩] : List HexCoord)) ∧
    findPath ⟨50, 3000⟩ ⟨0, 0⟩ ⟨0, 0⟩ sampleGrid 0 [⟨0, 0⟩] = some [] ∧
    findPath ⟨50, 3000⟩ ⟨0, 0⟩ ⟨0, 0⟩ sampleGrid 0 [⟨0, 0⟩] ≠ none := by
  refine ⟨by decide, by decide, by decide⟩

/-- C6 (amended): for every configuration, grid, rank and obstacle list,
`findPath` with start equal to end returns the empty path (not the
failure sentinel), and `findPath` toward a destination in the obstacle
set returns the failure sentinel whenever the destination differs from
the start. -/
theorem findpath_degenerate_and_blocked (cfg : SafetyConfig) (grid : Grid)
    (rank : Nat) (obstacles : List HexCoord) (a b : HexCoord) :
    findPath cfg a a grid rank obstacles = some [] ∧
    (a ≠ b → b ∈ obstacles → findPath cfg a b grid rank obstacles = none) := by
  constructor
  · unfold findPath
    rw [if_pos rfl]
  · intro hne hmem
    unfold findPath
    rw [if_neg hne]
    by_cases hdist : cubeDistance a b > cfg.maxPathLength
    · rw [if_pos hdist]
    · rw [if_neg hdist, if_pos hmem]

/-- Witness for C6 (amended) at concrete inputs. -/
theorem findpath_degenerate_and_blocked_witness :
    findPath ⟨50, 3000⟩ ⟨0, 0⟩ ⟨0, 0⟩ sampleGrid 1 [⟨1, 0⟩] = some [] ∧
    findPath ⟨50, 3000⟩ ⟨0, 0⟩ ⟨1, 0⟩ sampleGrid 1 [⟨1, 0⟩] = none :=
  have main := findpath_degenerate_and_blocked ⟨50, 3000⟩ sampleGrid 1
    [⟨1, 0⟩] ⟨0, 0⟩ ⟨1, 0⟩
  ⟨main.1, main.2 (by decide) (by decide)⟩

/-! ## C7: geometry lemmas -/

theorem cubeDistance_self (a : HexCoord) : cubeDistance a a = 0 := by
  unfold cubeDistance
  omega

theorem cubeDistance_triangle (a b c : HexCoord) :
    cubeDistance a c ≤ cubeDistance a b + cubeDistance b c := by
  unfold cubeDistance
  omega

/-- Each coordinate difference is bounded by the cube distance. -/
theorem cubeDistance_component (a b : HexCoord) :
    (a.q - b.q).natAbs ≤ cubeDistance a b ∧
    (a.r - b.r).natAbs ≤ cubeDistance a b := by
  unfold cubeDistance
  omega

theorem neighbor_dist_one (c n : HexCoord) (hn : n ∈ getNeighbors c.q c.r) :
    cubeDistance c n = 1 := by
  simp only [getNeighbors, hexDirections, List.map_cons, List.map_nil,
    List.mem_cons, List.not_mem_nil, or_false] at hn
  rcases hn with h | h | h | h | h | h <;> subst h <;>
    simp [cubeDistance] <;> omega

theorem dist_le_of_neighbor (a c n : HexCoord)
    (hn : n ∈ getNeighbors c.q c.r) :
    cubeDistance a n ≤ cubeDistance a c + 1 := by
  have := cubeDistance_triangle a c n
  rw [neighbor_dist_one c n hn] at this
  omega

theorem linePoint_zero (a d : HexCoord) : linePoint a d 0 = a := by
  unfold linePoint
  cases a
  simp

theorem linePoint_dist (a d : HexCoord) (hd : d ∈ hexDirections)
    (i j : Nat) (hij : i ≤ j) :
    cubeDistance (linePoint a d i) (linePoint a d j) = j - i := by
  fin_cases hd <;>
    (unfold cubeDistance linePoint; simp; omega)

theorem linePoint_succ_mem_neighbors (a d : HexCoord) (hd : d ∈ hexDirections)
    (j : Nat) :
    linePoint a d (j + 1) ∈
      getNeighbors (linePoint a d j).q (linePoint a d j).r := by
  simp only [getNeighbors, List.mem_map]
  refine ⟨d, hd, ?_⟩
  unfold linePoint
  simp only [HexCoord.mk.injEq]
  constructor <;> (push_cast; ring)

/-- Nodes within distance `k` of the center lie in the square. -/
theorem mem_squareAround (a p : HexCoord) (k : Nat)
    (h : cubeDistance a p ≤ k) : p ∈ squareAround a k := by
  obtain ⟨hq, hr⟩ := cubeDistance_component a p
  obtain ⟨pq, pr⟩ := p
  dsimp only at hq hr
  unfold squareAround
  apply List.mem_flatMap.mpr
  refine ⟨(pq - a.q + k).toNat, ?_, ?_⟩
  · exact List.mem_range.mpr (by omega)
  · apply List.mem_map.mpr
    refine ⟨(pr - a.r + k).toNat, ?_, ?_⟩
    · exact List.mem_range.mpr (by omega)
    · simp only [HexCoord.mk.injEq]
      constructor <;> omega

/-- The length of a rectangular flatMap-of-map block. -/
theorem flatMap_map_length {α : Type} (n m : Nat) (f : Nat → Nat → α) :
    ((List.range n).flatMap fun i => (List.range m).map fun j => f i j).length
      = n * m := by
  induction n with
  | zero => simp
  | succ nn ih =>
    rw [List.range_succ, List.flatMap_append]
    simp [ih]
    ring

/-- The square has `(2k+1)²` nodes. -/
theorem squareAround_length (a : HexCoord) (k : Nat) :
    (squareAround a k).length = (2 * k + 1) * (2 * k + 1) := by
  unfold squareAround
  exact flatMap_map_length (2 * k + 1) (2 * k + 1) _

/-! ## C7: the heap is a permutation-preserving structure -/

theorem cons_set_perm {α : Type} (xs : List α) (kk : Nat) (b x : α)
    (h : xs.get? kk = some b) :
    (b :: xs.set kk x).Perm (x :: xs) := by
  induction xs generalizing kk with
  | nil => cases h
  | cons y ys ih =>
    cases kk with
    | zero =>
      cases h
      exact List.Perm.swap _ _ _
    | succ kk =>
      have step1 : (b :: y :: ys.set kk x).Perm (y :: b :: ys.set kk x) :=
        List.Perm.swap _ _ _
      have step2 : (y :: b :: ys.set kk x).Perm (y :: x :: ys) :=
        List.Perm.cons _ (ih kk h)
      have step3 : (y :: x :: ys).Perm (x :: y :: ys) := List.Perm.swap _ _ _
      exact (step1.trans step2).trans step3

theorem swap_set_perm {α : Type} (l : List α) (i j : Nat) (a b : α)
    (hij : i < j) (ha : l.get? i = some a) (hb : l.get? j = some b) :
    ((l.set i b).set j a).Perm l := by
  induction l generalizing i j with
  | nil => cases ha
  | cons x xs ih =>
    cases i with
    | zero =>
      cases ha
      cases j with
      | zero => omega
      | succ j =>
        simp only [List.get?_cons_succ] at hb
        exact cons_set_perm xs j b _ hb
    | succ i =>
      cases j with
      | zero => omega
      | succ j =>
        simp only [List.get?_cons_succ] at ha hb
        simp only [List.set_cons_succ]
        exact List.Perm.cons _ (ih i j (by omega) ha hb)

theorem heapSwap_length (l : List HeapEntry) (i j : Nat) :
    (heapSwap l i j).length = l.length := by
  unfold heapSwap
  split
  · simp
  · rfl

theorem heapSwap_perm (l : List HeapEntry) (i j : Nat) (hij : i ≠ j) :
    (heapSwap l i j).Perm l := by
  unfold heapSwap
  split
  · next a b ha hb =>
    rcases Nat.lt_or_ge i j with hlt | hge
    · exact swap_set_perm l i j a b hlt ha hb
    · have hlt : j < i := by omega
      rw [List.set_comm b a l hij]
      exact swap_set_perm l j i b a hlt hb ha
  · exact List.Perm.refl l

/-- The swap target of `sinkDown` is a strictly deeper in-bounds slot. -/
theorem sinkSwapTarget_bounds (l : List HeapEntry) (index : Nat)
    (elem : HeapEntry) (j : Nat)
    (htgt : sinkSwapTarget l index elem = some j) :
    index < j ∧ j < l.length ∧
      (j = 2 * index + 1 ∨ j = 2 * index + 2) := by
  unfold sinkSwapTarget at htgt
  split at htgt
  · cases htgt
  · next lc hl hr =>
    split at htgt
    · cases htgt
      obtain ⟨hlt, _⟩ := List.get?_eq_some.mp hl
      exact ⟨by omega, hlt, Or.inl rfl⟩
    · cases htgt
  · next rc hl hr =>
    split at htgt
    · cases htgt
      obtain ⟨hlt, _⟩ := List.get?_eq_some.mp hr
      exact ⟨by omega, hlt, Or.inr rfl⟩
    · cases htgt
  · next lc rc hl hr =>
    obtain ⟨hlt1, _⟩ := List.get?_eq_some.mp hl
    obtain ⟨hlt2, _⟩ := List.get?_eq_some.mp hr
    split at htgt
    · split at htgt <;> cases htgt
      · exact ⟨by omega, by omega, Or.inr rfl⟩
      · exact ⟨by omega, by omega, Or.inl rfl⟩
    · split at htgt
      · cases htgt
        exact ⟨by omega, by omega, Or.inr rfl⟩
      · cases htgt

theorem bubbleUp_perm : ∀ (i : Nat) (l : List HeapEntry),
    (bubbleUp l i).Perm l := by
  intro i
  induction i using Nat.strong_induction_on with
  | _ i ih =>
    intro l
    rw [bubbleUp]
    split
    · exact List.Perm.refl l
    · next hi =>
      split
      · next e p he hp =>
        split
        · exact List.Perm.refl l
        · exact (ih ((i - 1) / 2) (by omega) _).trans
            (heapSwap_perm l i ((i - 1) / 2) (by omega))
      · exact List.Perm.refl l

theorem sinkDown_perm : ∀ (n : Nat) (l : List HeapEntry) (i : Nat),
    l.length - i ≤ n → (sinkDown l i).Perm l := by
  intro n
  induction n with
  | zero =>
    intro l i hn
    rw [sinkDown]
    split
    · exact List.Perm.refl l
    · next elem he =>
      obtain ⟨hlt, _⟩ := List.get?_eq_some.mp he
      split
      · exact List.Perm.refl l
      · next j htgt =>
        exact absurd (sinkSwapTarget_bounds l i elem j htgt) (by omega)
  | succ n ih =>
    intro l i hn
    rw [sinkDown]
    split
    · exact List.Perm.refl l
    · next elem he =>
      split
      · exact List.Perm.refl l
      · next j htgt =>
        obtain ⟨hij, hjl, _⟩ := sinkSwapTarget_bounds l i elem j htgt
        have hlen := heapSwap_length l i j
        exact (ih _ j (by omega)).trans (heapSwap_perm l i j (by omega))

theorem PQpush_perm (l : List HeapEntry) (node : HexCoord) (w : Nat) :
    (PQpush l node w).Perm ((node, w) :: l) := by
  unfold PQpush
  exact (bubbleUp_perm _ _).trans (List.perm_append_singleton _ _)

/-- The pop equation on a non-empty heap. -/
theorem PQpop_cons_eq (top : HeapEntry) (tl : List HeapEntry) :
    PQpop (top :: tl) =
      if 0 < ((top :: tl).dropLast).length
      then some (top, sinkDown (((top :: tl).dropLast).set 0
        ((top :: tl).getLast (by simp))) 0)
      else some (top, (top :: tl).dropLast) := by
  unfold PQpop
  rw [List.getLast?_eq_getLast _ (by simp)]

theorem PQpop_isSome (l : List HeapEntry) (hne : l ≠ []) :
    ∃ t rest, PQpop l = some (t, rest) := by
  cases l with
  | nil => simp at hne
  | cons top tl =>
    rw [PQpop_cons_eq]
    by_cases hpos : 0 < ((top :: tl).dropLast).length
    · exact ⟨_, _, by rw [if_pos hpos]⟩
    · exact ⟨_, _, by rw [if_neg hpos]⟩

theorem PQpop_perm (l : List HeapEntry) (t : HeapEntry)
    (rest : List HeapEntry) (h : PQpop l = some (t, rest)) :
    l.Perm (t :: rest) := by
  cases l with
  | nil => cases h
  | cons top tl =>
    rw [PQpop_cons_eq] at h
    split at h
    · next hpos =>
      injection h with hpair
      injection hpair with h1 h2
      subst h1
      subst h2
      have htlne : tl ≠ [] := by
        intro hnil
        subst hnil
        simp at hpos
      have hdrop : (top :: tl).dropLast = top :: tl.dropLast := by
        cases tl with
        | nil => exact absurd rfl htlne
        | cons _ _ => rfl
      have hlast : (top :: tl).getLast (by simp) = tl.getLast htlne :=
        List.getLast_cons htlne
      rw [hdrop, hlast]
      have hset : (top :: tl.dropLast).set 0
          (tl.getLast htlne) = tl.getLast htlne :: tl.dropLast := rfl
      rw [hset]
      have hperm1 : (sinkDown (tl.getLast htlne :: tl.dropLast) 0).Perm
          (tl.getLast htlne :: tl.dropLast) :=
        sinkDown_perm _ _ 0 (Nat.le_refl _)
      have hperm2 : (tl.getLast htlne :: tl.dropLast).Perm tl := by
        have hconcat : tl.dropLast ++ [tl.getLast htlne] = tl :=
          List.dropLast_append_getLast htlne
        have h' := (List.perm_append_singleton (tl.getLast htlne) tl.dropLast).symm
        rw [hconcat] at h'
        exact h'
      exact List.Perm.cons top ((hperm1.trans hperm2)).symm
    · next hpos =>
      injection h with hpair
      injection hpair with h1 h2
      subst h1
      subst h2
      have htl : tl = [] := by
        cases tl with
        | nil => rfl
        | cons _ _ => simp at hpos
      subst htl
      exact List.Perm.refl _

/-! ## C7: the heap order invariant of the priority queue -/

theorem heapSwap_get_left (l : List HeapEntry) (i j : Nat) (a b : HeapEntry)
    (ha : l.get? i = some a) (hb : l.get? j = some b) :
    (heapSwap l i j).get? i = some b := by
  unfold heapSwap
  rw [ha, hb]
  by_cases hij : i = j
  · subst hij
    have hl : i < l.length := (List.get?_eq_some.mp ha).1
    have hstep : ((l.set i b).set i a).get? i = some a :=
      List.get?_set_eq_of_lt a (by simpa using hl)
    rw [hstep]
    rw [ha] at hb
    injection hb with h
    rw [h]
  · have hl : i < l.length := (List.get?_eq_some.mp ha).1
    rw [List.get?_set_ne a _ (Ne.symm hij)]
    exact List.get?_set_eq_of_lt b hl

theorem heapSwap_get_right (l : List HeapEntry) (i j : Nat) (a b : HeapEntry)
    (ha : l.get? i = some a) (hb : l.get? j = some b) :
    (heapSwap l i j).get? j = some a := by
  unfold heapSwap
  rw [ha, hb]
  have hl : j < l.length := (List.get?_eq_some.mp hb).1
  exact List.get?_set_eq_of_lt a (by simpa using hl)

theorem heapSwap_get_other (l : List HeapEntry) (i j m : Nat)
    (hmi : m ≠ i) (hmj : m ≠ j) :
    (heapSwap l i j).get? m = l.get? m := by
  unfold heapSwap
  split
  · next a b ha hb =>
    rw [List.get?_set_ne a _ (Ne.symm hmj), List.get?_set_ne b l (Ne.symm hmi)]
  · rfl

/-- `bubbleUp` restores the heap order from a state where every edge but
the one into `index` holds and the occupant of `index`'s parent already
bounds `index`'s children. -/
theorem bubbleUp_order : ∀ (i : Nat) (l : List HeapEntry),
    (∀ j e p, 0 < j → j ≠ i → l.get? j = some e →
      l.get? ((j - 1) / 2) = some p → p.2 ≤ e.2) →
    (∀ c x gp, (c = 2 * i + 1 ∨ c = 2 * i + 2) → l.get? c = some x →
      l.get? ((i - 1) / 2) = some gp → gp.2 ≤ x.2) →
    heapParentLe (bubbleUp l i) := by
  intro i
  induction i using Nat.strong_induction_on with
  | _ i ih =>
    intro l h1 h2
    rw [bubbleUp]
    split
    · next hi0 =>
      subst hi0
      intro j e p hj hje hjp
      exact h1 j e p hj (by omega) hje hjp
    · next hi0 =>
      split
      · next e p he hp =>
        split
        · next hge =>
          intro j e' p' hj hje hjp
          by_cases hji : j = i
          · subst hji
            rw [he] at hje
            rw [hp] at hjp
            injection hje with hje
            injection hjp with hjp
            rw [← hje, ← hjp]
            omega
          · exact h1 j e' p' hj hji hje hjp
        · next hlt =>
          have hlt' : e.2 < p.2 := by omega
          have hpar : (i - 1) / 2 < i := by omega
          apply ih ((i - 1) / 2) hpar
          · -- clause 1 for the swapped list at the parent index
            intro j e' p' hj hjne hje hjp
            have hgi : (heapSwap l i ((i - 1) / 2)).get? i = some p :=
              heapSwap_get_left l i ((i - 1) / 2) e p he hp
            have hgp : (heapSwap l i ((i - 1) / 2)).get? ((i - 1) / 2) = some e :=
              heapSwap_get_right l i ((i - 1) / 2) e p he hp
            by_cases hji : j = i
            · -- the edge from the parent into the old index now holds
              subst hji
              rw [hgi] at hje
              rw [hgp] at hjp
              injection hje with hje
              injection hjp with hjp
              rw [← hje, ← hjp]
              omega
            · have hjo : (heapSwap l i ((i - 1) / 2)).get? j = l.get? j :=
                heapSwap_get_other l i ((i - 1) / 2) j hji hjne
              rw [hjo] at hje
              by_cases hpi : (j - 1) / 2 = i
              · -- j is a child of the old index: clause 2 pays for it
                rw [hpi, hgi] at hjp
                injection hjp with hjp
                rw [← hjp]
                exact h2 j e' p (by omega) hje hp
              · by_cases hppar : (j - 1) / 2 = (i - 1) / 2
                · -- j is a sibling of the old index
                  rw [hppar, hgp] at hjp
                  injection hjp with hjp
                  rw [← hjp]
                  have := h1 j e' p hj hji hje (by rw [hppar]; exact hp)
                  omega
                · have hpo : (heapSwap l i ((i - 1) / 2)).get? ((j - 1) / 2) =
                      l.get? ((j - 1) / 2) :=
                    heapSwap_get_other l i ((i - 1) / 2) ((j - 1) / 2) hpi hppar
                  rw [hpo] at hjp
                  exact h1 j e' p' hj hji hje hjp
          · -- clause 2 for the swapped list at the parent index
            intro c x gp hc hcx hgp
            have hgi : (heapSwap l i ((i - 1) / 2)).get? i = some p :=
              heapSwap_get_left l i ((i - 1) / 2) e p he hp
            have hgp' : (heapSwap l i ((i - 1) / 2)).get? ((i - 1) / 2) = some e :=
              heapSwap_get_right l i ((i - 1) / 2) e p he hp
            by_cases hpz : (i - 1) / 2 = 0
            · -- the parent is the root: its grandparent slot is itself
              have hgg : ((i - 1) / 2 - 1) / 2 = (i - 1) / 2 := by omega
              rw [hgg, hgp'] at hgp
              injection hgp with hgp
              by_cases hci : c = i
              · subst hci
                rw [hgi] at hcx
                injection hcx with hcx
                rw [← hcx, ← hgp]
                omega
              · have hcpar : c ≠ (i - 1) / 2 := by omega
                rw [heapSwap_get_other l i ((i - 1) / 2) c hci hcpar] at hcx
                have hp0 : l.get? 0 = some p := by rw [← hpz]; exact hp
                have := h1 c x p (by omega) hci hcx (by
                  have : (c - 1) / 2 = 0 := by omega
                  rw [this]; exact hp0)
                rw [← hgp]
                omega
            · -- the parent is a proper slot with a strictly higher grandparent
              have hggi : ((i - 1) / 2 - 1) / 2 ≠ i := by omega
              have hggp : ((i - 1) / 2 - 1) / 2 ≠ (i - 1) / 2 := by omega
              rw [heapSwap_get_other l i ((i - 1) / 2) _ hggi hggp] at hgp
              have hedge : gp.2 ≤ p.2 :=
                h1 ((i - 1) / 2) p gp (by omega) (by omega) hp hgp
              by_cases hci : c = i
              · subst hci
                rw [hgi] at hcx
                injection hcx with hcx
                rw [← hcx]
                exact hedge
              · have hcpar : c ≠ (i - 1) / 2 := by omega
                rw [heapSwap_get_other l i ((i - 1) / 2) c hci hcpar] at hcx
                have := h1 c x p (by omega) hci hcx (by
                  have hcp : (c - 1) / 2 = (i - 1) / 2 := by omega
                  rw [hcp]; exact hp)
                omega
      · next hnone =>
        intro j e' p' hj hje hjp
        by_cases hji : j = i
        · subst hji
          exact absurd (hnone e' p' hje hjp) (fun h => h)
        · exact h1 j e' p' hj hji hje hjp

/-- Pushing onto an ordered heap keeps it ordered. -/
theorem PQpush_order (l : List HeapEntry) (node : HexCoord) (w : Nat)
    (h : heapParentLe l) : heapParentLe (PQpush l node w) := by
  unfold PQpush
  apply bubbleUp_order
  · intro j e p hj hjne hje hjp
    by_cases hjl : j < l.length
    · rw [List.get?_append hjl] at hje
      rw [List.get?_append (by omega)] at hjp
      exact h j e p hj hje hjp
    · have : (l ++ [(node, w)]).get? j = none := by
        rw [List.get?_eq_none]
        simp only [List.length_append, List.length_singleton]
        omega
      rw [this] at hje
      cases hje
  · intro c x gp hc hcx hgp
    have : (l ++ [(node, w)]).get? c = none := by
      rw [List.get?_eq_none]
      simp only [List.length_append, List.length_singleton]
      omega
    rw [this] at hcx
    cases hcx

/-- When `sinkSwapTarget` finds no target, both children (when present)
are at least as heavy as the element. -/
theorem sinkSwapTarget_none (l : List HeapEntry) (i : Nat) (elem : HeapEntry)
    (h : sinkSwapTarget l i elem = none) :
    ∀ c x, (c = 2 * i + 1 ∨ c = 2 * i + 2) → l.get? c = some x →
      elem.2 ≤ x.2 := by
  intro c x hc hcx
  unfold sinkSwapTarget at h
  split at h
  · next hl hr =>
    rcases hc with hc | hc <;> rw [hc] at hcx
    · rw [hl] at hcx; cases hcx
    · rw [hr] at hcx; cases hcx
  · next lc hl hr =>
    split at h
    · cases h
    · next hge =>
      rcases hc with hc | hc <;> rw [hc] at hcx
      · rw [hl] at hcx; injection hcx with hcx; subst hcx; omega
      · rw [hr] at hcx; cases hcx
  · next rc hl hr =>
    split at h
    · cases h
    · next hge =>
      rcases hc with hc | hc <;> rw [hc] at hcx
      · rw [hl] at hcx; cases hcx
      · rw [hr] at hcx; injection hcx with hcx; subst hcx; omega
  · next lc rc hl hr =>
    split at h
    · split at h <;> cases h
    · next hltl =>
      split at h
      · cases h
      · next hltr =>
        rcases hc with hc | hc <;> rw [hc] at hcx
        · rw [hl] at hcx; injection hcx with hcx; subst hcx; omega
        · rw [hr] at hcx; injection hcx with hcx; subst hcx; omega

/-- When `sinkSwapTarget` picks `j`, the occupant of `j` is strictly
lighter than the element and no heavier than the sibling. -/
theorem sinkSwapTarget_some (l : List HeapEntry) (i : Nat) (elem : HeapEntry)
    (j : Nat) (h : sinkSwapTarget l i elem = some j) :
    ∃ y, l.get? j = some y ∧ y.2 < elem.2 ∧
      (∀ c x, (c = 2 * i + 1 ∨ c = 2 * i + 2) → c ≠ j → l.get? c = some x →
        y.2 ≤ x.2) := by
  unfold sinkSwapTarget at h
  split at h
  · cases h
  · next lc hl hr =>
    split at h
    · next hlt =>
      injection h with h
      subst h
      refine ⟨lc, hl, hlt, ?_⟩
      intro c x hc hcj hcx
      rcases hc with hc | hc
      · omega
      · rw [hc, hr] at hcx; cases hcx
    · cases h
  · next rc hl hr =>
    split at h
    · next hlt =>
      injection h with h
      subst h
      refine ⟨rc, hr, hlt, ?_⟩
      intro c x hc hcj hcx
      rcases hc with hc | hc
      · rw [hc, hl] at hcx; cases hcx
      · omega
    · cases h
  · next lc rc hl hr =>
    split at h
    · next hltl =>
      split at h
      · next hrl =>
        injection h with h
        subst h
        refine ⟨rc, hr, by omega, ?_⟩
        intro c x hc hcj hcx
        rcases hc with hc | hc
        · rw [hc, hl] at hcx; injection hcx with hcx; subst hcx; omega
        · omega
      · next hrl =>
        injection h with h
        subst h
        refine ⟨lc, hl, hltl, ?_⟩
        intro c x hc hcj hcx
        rcases hc with hc | hc
        · omega
        · rw [hc, hr] at hcx; injection hcx with hcx; subst hcx; omega
    · next hltl =>
      split at h
      · next hltr =>
        injection h with h
        subst h
        refine ⟨rc, hr, hltr, ?_⟩
        intro c x hc hcj hcx
        rcases hc with hc | hc
        · rw [hc, hl] at hcx; injection hcx with hcx; subst hcx; omega
        · omega
      · cases h

/-- `sinkDown` restores the heap order from a state where every edge not
leaving `index` holds and `index`'s parent already bounds `index`'s
children. -/
theorem sinkDown_order : ∀ (n : Nat) (l : List HeapEntry) (i : Nat),
    l.length - i ≤ n →
    (∀ j e p, 0 < j → (j - 1) / 2 ≠ i → l.get? j = some e →
      l.get? ((j - 1) / 2) = some p → p.2 ≤ e.2) →
    (∀ c x gp, (c = 2 * i + 1 ∨ c = 2 * i + 2) → l.get? c = some x →
      0 < i → l.get? ((i - 1) / 2) = some gp → gp.2 ≤ x.2) →
    heapParentLe (sinkDown l i) := by
  intro n
  induction n with
  | zero =>
    intro l i hn h1 h2
    rw [sinkDown]
    split
    · next he =>
      intro j e p hj hje hjp
      by_cases hpj : (j - 1) / 2 = i
      · rw [hpj, he] at hjp
        cases hjp
      · exact h1 j e p hj hpj hje hjp
    · next elem he =>
      obtain ⟨hlt, _⟩ := List.get?_eq_some.mp he
      split
      · next htgt =>
        intro j e p hj hje hjp
        by_cases hpj : (j - 1) / 2 = i
        · rw [hpj, he] at hjp
          injection hjp with hjp
          rw [← hjp]
          exact sinkSwapTarget_none l i elem htgt j e (by omega) hje
        · exact h1 j e p hj hpj hje hjp
      · next j htgt =>
        exact absurd (sinkSwapTarget_bounds l i elem j htgt) (by omega)
  | succ n ih =>
    intro l i hn h1 h2
    rw [sinkDown]
    split
    · next he =>
      intro j e p hj hje hjp
      by_cases hpj : (j - 1) / 2 = i
      · rw [hpj, he] at hjp
        cases hjp
      · exact h1 j e p hj hpj hje hjp
    · next elem he =>
      split
      · next htgt =>
        intro j e p hj hje hjp
        by_cases hpj : (j - 1) / 2 = i
        · rw [hpj, he] at hjp
          injection hjp with hjp
          rw [← hjp]
          exact sinkSwapTarget_none l i elem htgt j e (by omega) hje
        · exact h1 j e p hj hpj hje hjp
      · next j htgt =>
        obtain ⟨hij, hjl, hcld⟩ := sinkSwapTarget_bounds l i elem j htgt
        obtain ⟨y, hy, hylt, hysib⟩ := sinkSwapTarget_some l i elem j htgt
        have hlen := heapSwap_length l i j
        have hgi : (heapSwap l i j).get? i = some y :=
          heapSwap_get_left l i j elem y he hy
        have hgj : (heapSwap l i j).get? j = some elem :=
          heapSwap_get_right l i j elem y he hy
        apply ih (heapSwap l i j) j (by omega)
        · -- clause 1 for the swapped list at the child index
          intro m e p hm hpmj hme hmp
          by_cases hpmi : (m - 1) / 2 = i
          · -- m is a child of the old index
            rw [hpmi, hgi] at hmp
            injection hmp with hmp
            rw [← hmp]
            by_cases hmj : m = j
            · subst hmj
              rw [hgj] at hme
              injection hme with hme
              rw [← hme]
              omega
            · have hmi : m ≠ i := by omega
              rw [heapSwap_get_other l i j m hmi hmj] at hme
              exact hysib m e (by omega) hmj hme
          · by_cases hmi : m = i
            · -- the old index now holds the light child: clause 2 pays
              rw [hmi, hgi] at hme
              injection hme with hme
              rw [← hme]
              have hpo : (heapSwap l i j).get? ((m - 1) / 2) =
                  l.get? ((m - 1) / 2) :=
                heapSwap_get_other l i j ((m - 1) / 2) hpmi hpmj
              rw [hpo] at hmp
              have h0i : 0 < i := by omega
              have hmp' : l.get? ((i - 1) / 2) = some p := by
                rw [← hmi]; exact hmp
              exact h2 j y p hcld hy h0i hmp'
            · by_cases hmj : m = j
              · omega
              · rw [heapSwap_get_other l i j m hmi hmj] at hme
                rw [heapSwap_get_other l i j ((m - 1) / 2) hpmi hpmj] at hmp
                exact h1 m e p hm hpmi hme hmp
        · -- clause 2 for the swapped list at the child index
          intro c x gp hc hcx hj0 hgp
          have hpji : (j - 1) / 2 = i := by rcases hcld with hc1 | hc1 <;> omega
          rw [hpji, hgi] at hgp
          injection hgp with hgp
          rw [← hgp]
          have hci : c ≠ i := by omega
          have hcj : c ≠ j := by omega
          rw [heapSwap_get_other l i j c hci hcj] at hcx
          have := h1 c x y (by omega) (by omega) hcx (by
            have : (c - 1) / 2 = j := by omega
            rw [this]; exact hy)
          omega

/-- In an ordered heap the root bounds every slot. -/
theorem heap_root_min (l : List HeapEntry) (r : HeapEntry)
    (h : heapParentLe l) (hr : l.get? 0 = some r) :
    ∀ i e, l.get? i = some e → r.2 ≤ e.2 := by
  intro i
  induction i using Nat.strong_induction_on with
  | _ i ih =>
    intro e he
    cases i with
    | zero =>
      rw [hr] at he
      injection he with he
      rw [he]
    | succ i =>
      have hlen : i.succ < l.length := (List.get?_eq_some.mp he).1
      have hplen : (i.succ - 1) / 2 < l.length := by omega
      obtain ⟨p, hp⟩ : ∃ p, l.get? ((i.succ - 1) / 2) = some p := by
        rw [List.get?_eq_get hplen]
        exact ⟨_, rfl⟩
      have hedge : p.2 ≤ e.2 := h i.succ e p (by omega) he hp
      have := ih ((i.succ - 1) / 2) (by omega) p hp
      omega

/-- `PQpop` returns the slot-0 element. -/
theorem PQpop_head (l : List HeapEntry) (t : HeapEntry)
    (rest : List HeapEntry) (h : PQpop l = some (t, rest)) :
    l.get? 0 = some t := by
  cases l with
  | nil => cases h
  | cons top tl =>
    rw [PQpop_cons_eq] at h
    split at h <;>
    · injection h with hpair
      injection hpair with h1 h2
      subst h1
      rfl

/-- `PQpop` on an ordered heap returns a minimum element. -/
theorem PQpop_min (l : List HeapEntry) (t : HeapEntry)
    (rest : List HeapEntry) (ho : heapParentLe l)
    (h : PQpop l = some (t, rest)) :
    ∀ e ∈ l, t.2 ≤ e.2 := by
  intro e he
  obtain ⟨i, hi⟩ := List.mem_iff_get?.mp he
  exact heap_root_min l t ho (PQpop_head l t rest h) i e hi

/-- `PQpop` on an ordered heap leaves an ordered heap. -/
theorem PQpop_order (l : List HeapEntry) (t : HeapEntry)
    (rest : List HeapEntry) (ho : heapParentLe l)
    (h : PQpop l = some (t, rest)) :
    heapParentLe rest := by
  cases l with
  | nil => cases h
  | cons top tl =>
    rw [PQpop_cons_eq] at h
    split at h
    · next hpos =>
      injection h with hpair
      injection hpair with h1 h2
      subst h1
      subst h2
      apply sinkDown_order ((((top :: tl).dropLast).set 0
        ((top :: tl).getLast (by simp))).length) _ 0 (by omega)
      · intro j e p hj hpj hje hjp
        have hjl : j < (((top :: tl).dropLast).set 0 _).length :=
          (List.get?_eq_some.mp hje).1
        rw [List.length_set, List.length_dropLast] at hjl
        have hpl : (j - 1) / 2 < (top :: tl).length - 1 := by omega
        have hje' : ((top :: tl).dropLast).get? j = some e := by
          rw [← hje, List.get?_set_ne _ _ (by omega)]
        have hjp' : ((top :: tl).dropLast).get? ((j - 1) / 2) = some p := by
          rw [← hjp, List.get?_set_ne _ _ (by omega)]
        rw [List.dropLast_eq_take, List.get?_take (by omega)] at hje'
        rw [List.dropLast_eq_take, List.get?_take (by omega)] at hjp'
        exact ho j e p hj hje' hjp'
      · intro c x gp hc hcx h0
        omega
    · next hpos =>
      injection h with hpair
      injection hpair with h1 h2
      subst h1
      subst h2
      intro j e p hj hje hjp
      have hjl : j < ((top :: tl).dropLast).length :=
        (List.get?_eq_some.mp hje).1
      rw [List.length_dropLast] at hjl hpos
      omega

/-! ## C7: association-list, cost and walk lemmas -/

theorem lookup_cons_eq {β : Type} (l : List (HexCoord × β)) (a : HexCoord)
    (b : β) : List.lookup a ((a, b) :: l) = some b := by
  simp [List.lookup]

theorem lookup_cons_ne {β : Type} (l : List (HexCoord × β)) (a c : HexCoord)
    (b : β) (h : c ≠ a) :
    List.lookup a ((c, b) :: l) = List.lookup a l := by
  simp only [List.lookup]
  rw [show (a == c) = false by simp [Ne.symm h]]

theorem lookup_mem_keys {β : Type} (l : List (HexCoord × β)) (a : HexCoord)
    (v : β) (h : List.lookup a l = some v) : a ∈ l.map Prod.fst := by
  induction l with
  | nil => cases h
  | cons x xs ih =>
    obtain ⟨xk, xv⟩ := x
    by_cases hax : a = xk
    · simp [hax]
    · rw [lookup_cons_ne xs a xk xv (Ne.symm hax)] at h
      simp [ih h]

theorem stepCost_pos (grid : Grid) (c : HexCoord) : 1 ≤ stepCost grid c := by
  unfold stepCost
  split
  · split <;> omega
  · omega

theorem pathCost_append (grid : Grid) (l : List HexCoord) (c : HexCoord) :
    pathCost grid (l ++ [c]) = pathCost grid l + stepCost grid c := by
  simp [pathCost]

theorem length_le_pathCost (grid : Grid) (l : List HexCoord) :
    l.length ≤ pathCost grid l := by
  induction l with
  | nil => simp [pathCost]
  | cons x xs ih =>
    have := stepCost_pos grid x
    simp only [pathCost, List.map_cons, List.sum_cons, List.length_cons]
    simp only [pathCost] at ih
    omega

theorem chain_append_singleton (a x : HexCoord) (l : List HexCoord)
    (hc : List.Chain (fun u v => v ∈ getNeighbors u.q u.r) a l)
    (hR : x ∈ getNeighbors (l.getLastD a).q (l.getLastD a).r) :
    List.Chain (fun u v => v ∈ getNeighbors u.q u.r) a (l ++ [x]) := by
  induction l generalizing a with
  | nil => simpa using hR
  | cons y ys ih =>
    cases hc with
    | cons hay hys =>
      simp only [List.getLastD_cons] at hR
      exact List.Chain.cons hay (ih y hys hR)

theorem chain_dist_le (a : HexCoord) (l : List HexCoord)
    (hc : List.Chain (fun u v => v ∈ getNeighbors u.q u.r) a l) :
    cubeDistance a (l.getLastD a) ≤ l.length := by
  induction l generalizing a with
  | nil => simp [cubeDistance_self]
  | cons y ys ih =>
    cases hc with
    | cons hay hys =>
      simp only [List.getLastD_cons, List.length_cons]
      have h1 := cubeDistance_triangle a y (ys.getLastD y)
      have h2 := neighbor_dist_one a y hay
      have h3 := ih y hys
      omega

theorem linePoint_ne (a d : HexCoord) (hd : d ∈ hexDirections) (i j : Nat)
    (hij : i ≠ j) : linePoint a d i ≠ linePoint a d j := by
  intro he
  rcases Nat.lt_or_ge i j with h | h
  · have hdist := linePoint_dist a d hd i j (le_of_lt h)
    rw [he, cubeDistance_self] at hdist
    omega
  · have hlt : j < i := by omega
    have hdist := linePoint_dist a d hd j i (le_of_lt hlt)
    rw [← he, cubeDistance_self] at hdist
    omega

theorem getNeighbors_nodup (q r : Int) : (getNeighbors q r).Nodup := by
  unfold getNeighbors
  apply List.Nodup.map
  · intro d1 d2 he
    obtain ⟨a1, b1⟩ := d1
    obtain ⟨a2, b2⟩ := d2
    simp only [HexCoord.mk.injEq] at he ⊢
    omega
  · decide

theorem PQpush_mem (l : List HeapEntry) (node : HexCoord) (w : Nat)
    (e : HeapEntry) (he : e ∈ l) : e ∈ PQpush l node w :=
  (PQpush_perm l node w).mem_iff.mpr (List.mem_cons_of_mem _ he)

theorem PQpush_mem_self (l : List HeapEntry) (node : HexCoord) (w : Nat) :
    (node, w) ∈ PQpush l node w :=
  (PQpush_perm l node w).mem_iff.mpr (List.mem_cons_self _ _)

theorem PQpush_mem_elim (l : List HeapEntry) (node : HexCoord) (w : Nat)
    (e : HeapEntry) (he : e ∈ PQpush l node w) : e = (node, w) ∨ e ∈ l := by
  have := (PQpush_perm l node w).mem_iff.mp he
  simpa using this

theorem PQpush_countP (l : List HeapEntry) (node : HexCoord) (w : Nat)
    (p : HeapEntry → Bool) :
    (PQpush l node w).countP p = ((node, w) :: l).countP p :=
  (PQpush_perm l node w).countP_eq p

theorem PQpop_countP (l : List HeapEntry) (t : HeapEntry)
    (rest : List HeapEntry) (h : PQpop l = some (t, rest))
    (p : HeapEntry → Bool) : l.countP p = (t :: rest).countP p :=
  (PQpop_perm l t rest h).countP_eq p

/-! ## C7: correctness of path reconstruction

With acyclic parent pointers certified by strictly increasing g-scores,
`reconstructPath` produces a neighbor-to-neighbor walk from the start
whose cost is covered by the goal's g-score. -/

/-- The reconstruction bundle, by strong induction on the g-score: for
every node scored `gp` and any fuel above `gp`, the reconstructed list is
a walk from the start ending at the node, costs at most `gp`, has no
duplicates, avoids the start, and draws its nodes from the parent map's
keys with positive scores. -/
theorem reconstruct_good (grid : Grid) (cameFrom : List (HexCoord × HexCoord))
    (gScore : List (HexCoord × Nat)) (a : HexCoord)
    (Hpar : ∀ p g, p ≠ a → List.lookup p gScore = some g →
      ∃ c gc, List.lookup p cameFrom = some c ∧ p ∈ getNeighbors c.q c.r ∧
        List.lookup c gScore = some gc ∧ gc + stepCost grid p ≤ g) :
    ∀ gp p, List.lookup p gScore = some gp → ∀ fuel, gp < fuel →
      List.Chain (fun u v => v ∈ getNeighbors u.q u.r) a
        (reconstructPath cameFrom a fuel p) ∧
      (reconstructPath cameFrom a fuel p).getLastD a = p ∧
      pathCost grid (reconstructPath cameFrom a fuel p) ≤ gp ∧
      (reconstructPath cameFrom a fuel p).Nodup ∧
      a ∉ reconstructPath cameFrom a fuel p ∧
      (∀ x ∈ reconstructPath cameFrom a fuel p,
        (∃ gx, List.lookup x gScore = some gx ∧ 0 < gx ∧ gx ≤ gp) ∧
        x ∈ cameFrom.map Prod.fst) := by
  intro gp
  induction gp using Nat.strong_induction_on with
  | _ gp ih =>
    intro p hp fuel hfuel
    cases fuel with
    | zero => omega
    | succ f =>
      by_cases hpa : p = a
      · subst hpa
        have hzero : reconstructPath cameFrom p (f + 1) p = [] := by
          rw [reconstructPath, if_pos rfl]
        rw [hzero]
        refine ⟨List.Chain.nil, rfl, by simp [pathCost], List.nodup_nil,
          List.not_mem_nil p, ?_⟩
        intro x hx
        cases hx
      · obtain ⟨c, gc, hcF, hnb, hcg, hstep⟩ := Hpar p gp hpa hp
        have hcost := stepCost_pos grid p
        have hgclt : gc < gp := by omega
        have heq : reconstructPath cameFrom a (f + 1) p =
            reconstructPath cameFrom a f c ++ [p] := by
          rw [reconstructPath, if_neg hpa, hcF]
        obtain ⟨ch, hlast, hcostle, hnodup, hnotA, hmem⟩ :=
          ih gc hgclt c hcg f (by omega)
        rw [heq]
        refine ⟨?_, List.getLastD_concat a p _, ?_, ?_, ?_, ?_⟩
        · refine chain_append_singleton a p _ ch ?_
          rw [hlast]
          exact hnb
        · rw [pathCost_append]
          omega
        · refine List.Nodup.append hnodup (List.nodup_singleton p) ?_
          intro x hx hxp
          rw [List.mem_singleton] at hxp
          subst hxp
          obtain ⟨⟨gx, hgx, _, hgxle⟩, _⟩ := hmem x hx
          rw [hp] at hgx
          injection hgx with hgx
          omega
        · rw [List.mem_append, List.mem_singleton]
          rintro (hA | hA)
          · exact hnotA hA
          · exact hpa hA.symm
        · intro x hx
          rw [List.mem_append, List.mem_singleton] at hx
          rcases hx with hx | hx
          · obtain ⟨⟨gx, hgx, hgx0, hgxle⟩, hk⟩ := hmem x hx
            exact ⟨⟨gx, hgx, hgx0, by omega⟩, hk⟩
          · subst hx
            exact ⟨⟨gp, hp, by omega, Nat.le_refl gp⟩,
              lookup_mem_keys cameFrom x c hcF⟩

/-- At the goal pop, the reconstruction with the code's fuel
(`cameFrom.length + 1`) is a path of length and cost exactly the
start-goal distance. -/
theorem reconstruct_at_goal (grid : Grid)
    (cameFrom : List (HexCoord × HexCoord)) (gScore : List (HexCoord × Nat))
    (a b : HexCoord) (k : Nat)
    (Hpar : ∀ p g, p ≠ a → List.lookup p gScore = some g →
      ∃ c gc, List.lookup p cameFrom = some c ∧ p ∈ getNeighbors c.q c.r ∧
        List.lookup c gScore = some gc ∧ gc + stepCost grid p ≤ g)
    (hb : List.lookup b gScore = some k) (hkd : cubeDistance a b = k) :
    (reconstructPath cameFrom a (cameFrom.length + 1) b).length = k ∧
    pathCost grid (reconstructPath cameFrom a (cameFrom.length + 1) b) = k := by
  have sandwich : ∀ fuel, k < fuel →
      (reconstructPath cameFrom a fuel b).length = k ∧
      pathCost grid (reconstructPath cameFrom a fuel b) = k := by
    intro fuel hfuel
    obtain ⟨ch, hlast, hcost, _, _, _⟩ :=
      reconstruct_good grid cameFrom gScore a Hpar k b hb fuel hfuel
    have hlen := chain_dist_le a _ ch
    rw [hlast, hkd] at hlen
    have hlc := length_le_pathCost grid (reconstructPath cameFrom a fuel b)
    omega
  have hklen : k ≤ cameFrom.length := by
    obtain ⟨_, _, _, hnodup, _, hmem⟩ :=
      reconstruct_good grid cameFrom gScore a Hpar k b hb (k + 1)
        (Nat.lt_succ_self k)
    have hsub : reconstructPath cameFrom a (k + 1) b ⊆
        cameFrom.map Prod.fst := by
      intro x hx
      exact (hmem x hx).2
    have hle := (List.Nodup.subperm hnodup hsub).length_le
    rw [List.length_map] at hle
    have := (sandwich (k + 1) (Nat.lt_succ_self k)).1
    omega
  exact sandwich (cameFrom.length + 1) (by omega)


/-! ## C7: relaxation preserves the search invariants -/

theorem countP_flip_lt {α : Type} (l : List α) (x : α) (hx : x ∈ l)
    (P Q : α → Bool) (hframe : ∀ y ∈ l, y ≠ x → Q y = P y)
    (hPx : P x = true) (hQx : Q x = false) : l.countP Q < l.countP P := by
  obtain ⟨l₁, l₂, rfl⟩ := List.append_of_mem hx
  have hmono : ∀ (m : List α), (∀ y ∈ m, y ∈ l₁ ++ x :: l₂) →
      m.countP Q ≤ m.countP P := by
    intro m hm
    apply List.countP_mono_left
    intro y hy hQy
    by_cases hyx : y = x
    · subst hyx
      rw [hQx] at hQy
      cases hQy
    · rw [hframe y (hm y hy) hyx] at hQy
      exact hQy
  rw [List.countP_append, List.countP_append, List.countP_cons,
    List.countP_cons, hPx, hQx]
  have e1 : (if (true = true) then 1 else 0) = 1 := rfl
  have e2 : (if (false = true) then 1 else 0) = 0 := rfl
  rw [e1, e2]
  have h1 := hmono l₁ (fun y hy => by simp [hy])
  have h2 := hmono l₂ (fun y hy => by simp [hy])
  omega

theorem relax_spec (grid : Grid) (rank k : Nat) (a b c n : HexCoord)
    (Hgrid : ∀ p, cubeDistance a p ≤ k →
      ∃ hx, grid.get p = some hx ∧ hx.maxLevel = 0)
    (hcd : cubeDistance a c + 1 ≤ k)
    (hn : n ∈ getNeighbors c.q c.r)
    (st : List HeapEntry × List (HexCoord × HexCoord) × List (HexCoord × Nat)) :
    (relaxNeighbor grid rank [] b c 0 st n = st ∧
      ∀ gc, List.lookup c st.2.2 = some gc →
        ∃ gOld, List.lookup n st.2.2 = some gOld ∧ gOld ≤ gc + 1) ∨
    (∃ gc, List.lookup c st.2.2 = some gc ∧
      (∀ gOld, List.lookup n st.2.2 = some gOld → gc + 1 < gOld) ∧
      relaxNeighbor grid rank [] b c 0 st n =
        (PQpush st.1 n (gc + 1 + cubeDistance n b),
         (n, c) :: st.2.1, (n, gc + 1) :: st.2.2)) := by
  obtain ⟨hx, hgn, hlvl⟩ := Hgrid n (by
    have := dist_le_of_neighbor a c n hn
    omega)
  have hbody : relaxNeighbor grid rank [] b c 0 st n =
      relaxNeighbor.relaxUpdate b c n st 1 := by
    simp only [relaxNeighbor]
    rw [if_neg (List.not_mem_nil n), hgn]
    dsimp only
    rw [if_neg (by omega : ¬ hx.maxLevel > rank)]
    rw [if_neg (by omega : ¬ (((0 : Nat) : Int) - (hx.maxLevel : Int)).natAbs > 1)]
    rw [if_neg (by omega : ¬ hx.maxLevel ≥ 2)]
  rw [hbody]
  simp only [relaxNeighbor.relaxUpdate]
  cases hgc : List.lookup c st.2.2 with
  | none =>
    left
    refine ⟨rfl, ?_⟩
    intro gc h
    cases h
  | some gc =>
    dsimp only
    cases hgold : List.lookup n st.2.2 with
    | none =>
      dsimp only
      right
      refine ⟨gc, rfl, ?_, ?_⟩
      · intro g h
        exact Option.noConfusion h
      · rfl
    | some gOld =>
      dsimp only
      by_cases hlt : gc + 1 < gOld
      · right
        refine ⟨gc, rfl, ?_, ?_⟩
        · intro g h
          injection h with h
          omega
        · rw [if_pos (show decide (gc + 1 < gOld) = true by simpa using hlt)]
      · left
        refine ⟨?_, ?_⟩
        · rw [if_neg (show ¬ decide (gc + 1 < gOld) = true by simpa using hlt)]
        · intro g h
          injection h with h
          subst h
          exact ⟨gOld, rfl, by omega⟩

theorem relax_step (grid : Grid) (rank k : Nat) (a b c n : HexCoord)
    (hab : cubeDistance a b = k)
    (Hgrid : ∀ p, cubeDistance a p ≤ k →
      ∃ hx, grid.get p = some hx ∧ hx.maxLevel = 0)
    (hcd : cubeDistance a c + 1 ≤ k)
    (hn : n ∈ getNeighbors c.q c.r)
    (st : List HeapEntry × List (HexCoord × HexCoord) × List (HexCoord × Nat))
    (Hheap : heapParentLe st.1)
    (HgA : List.lookup a st.2.2 = some 0)
    (Hlow : ∀ p g, List.lookup p st.2.2 = some g → cubeDistance a p ≤ g)
    (Hpar : ∀ p g, p ≠ a → List.lookup p st.2.2 = some g →
      ∃ cp gc, List.lookup p st.2.1 = some cp ∧ p ∈ getNeighbors cp.q cp.r ∧
        List.lookup cp st.2.2 = some gc ∧ gc + stepCost grid p ≤ g)
    (Hent : ∀ e ∈ st.1, ∃ gp, List.lookup e.1 st.2.2 = some gp ∧
      gp + cubeDistance e.1 b ≤ e.2) :
    heapParentLe (relaxNeighbor grid rank [] b c 0 st n).1 ∧
    List.lookup a (relaxNeighbor grid rank [] b c 0 st n).2.2 = some 0 ∧
    (∀ p g, List.lookup p (relaxNeighbor grid rank [] b c 0 st n).2.2 = some g →
      cubeDistance a p ≤ g) ∧
    (∀ p g, p ≠ a →
      List.lookup p (relaxNeighbor grid rank [] b c 0 st n).2.2 = some g →
      ∃ cp gc,
        List.lookup p (relaxNeighbor grid rank [] b c 0 st n).2.1 = some cp ∧
        p ∈ getNeighbors cp.q cp.r ∧
        List.lookup cp (relaxNeighbor grid rank [] b c 0 st n).2.2 = some gc ∧
        gc + stepCost grid p ≤ g) ∧
    (∀ e ∈ (relaxNeighbor grid rank [] b c 0 st n).1, ∃ gp,
      List.lookup e.1 (relaxNeighbor grid rank [] b c 0 st n).2.2 = some gp ∧
      gp + cubeDistance e.1 b ≤ e.2) ∧
    (∀ p, p ≠ n →
      List.lookup p (relaxNeighbor grid rank [] b c 0 st n).2.2 =
        List.lookup p st.2.2) ∧
    (∀ p, List.lookup p (relaxNeighbor grid rank [] b c 0 st n).2.2 =
        List.lookup p st.2.2 ∨
      ∃ gc, List.lookup c st.2.2 = some gc ∧ p = n ∧
        List.lookup p (relaxNeighbor grid rank [] b c 0 st n).2.2 =
          some (gc + 1)) ∧
    (∀ p v,
      List.lookup p (relaxNeighbor grid rank [] b c 0 st n).2.2 = some v →
      List.lookup p st.2.2 = some v ∨
        (p, v + cubeDistance p b) ∈ (relaxNeighbor grid rank [] b c 0 st n).1) ∧
    (∀ e ∈ st.1, e ∈ (relaxNeighbor grid rank [] b c 0 st n).1) ∧
    (∀ p, List.lookup p st.2.2 = some (cubeDistance a p) →
      List.lookup p (relaxNeighbor grid rank [] b c 0 st n).2.2 =
        some (cubeDistance a p)) ∧
    astarMeasure a k (relaxNeighbor grid rank [] b c 0 st n).1
        (relaxNeighbor grid rank [] b c 0 st n).2.2 ≤
      astarMeasure a k st.1 st.2.2 := by
  have hcn : c ≠ n := by
    intro he
    rw [he] at hn
    exact center_not_mem_getNeighbors n.q n.r (by
      rw [← he] at hn
      rw [he] at hn
      exact hn)
  have hdan : cubeDistance a n ≤ k := by
    have := dist_le_of_neighbor a c n hn
    omega
  have hstep1 : stepCost grid n = 1 := by
    obtain ⟨hx, hgn, hlvl⟩ := Hgrid n hdan
    unfold stepCost
    rw [hgn]
    dsimp only
    rw [if_neg (show ¬ hx.maxLevel ≥ 2 by omega)]
  rcases relax_spec grid rank k a b c n Hgrid hcd hn st with
    ⟨heq, _⟩ | ⟨gc, hgc, hbetter, heq⟩
  · rw [heq]
    refine ⟨Hheap, HgA, Hlow, Hpar, Hent, fun p _ => rfl, fun p => Or.inl rfl,
      fun p v h => Or.inl h, fun e he => he, fun p hp => hp, Nat.le_refl _⟩
  · have hgcd : cubeDistance a c ≤ gc := Hlow c gc hgc
    have hvn : cubeDistance a n ≤ gc + 1 := by
      have := dist_le_of_neighbor a c n hn
      omega
    have hna : n ≠ a := by
      intro he
      subst he
      have := hbetter 0 HgA
      omega
    rw [heq]
    dsimp only
    refine ⟨?_, ?_, ?_, ?_, ?_, ?_, ?_, ?_, ?_, ?_, ?_⟩
    · exact PQpush_order st.1 n _ Hheap
    · rw [lookup_cons_ne _ _ _ _ hna]
      exact HgA
    · intro p g hp
      by_cases hpn : p = n
      · subst hpn
        rw [lookup_cons_eq] at hp
        injection hp with hp
        omega
      · rw [lookup_cons_ne _ _ _ _ (fun h => hpn h.symm)] at hp
        exact Hlow p g hp
    · intro p g hpa hp
      by_cases hpn : p = n
      · subst hpn
        rw [lookup_cons_eq] at hp
        injection hp with hp
        refine ⟨c, gc, lookup_cons_eq _ _ _, hn, ?_, ?_⟩
        · rw [lookup_cons_ne _ _ _ _ (Ne.symm hcn)]
          exact hgc
        · rw [hstep1]
          omega
      · rw [lookup_cons_ne _ _ _ _ (fun h => hpn h.symm)] at hp
        obtain ⟨cp, gcp, hpc, hpnb, hcg, hle⟩ := Hpar p g hpa hp
        by_cases hcpn : cp = n
        · subst hcpn
          have hgcp := hbetter gcp hcg
          refine ⟨cp, gc + 1, ?_, hpnb, lookup_cons_eq _ _ _, ?_⟩
          · rw [lookup_cons_ne _ _ _ _ (fun h => hpn h.symm)]
            exact hpc
          · omega
        · refine ⟨cp, gcp, ?_, hpnb, ?_, hle⟩
          · rw [lookup_cons_ne _ _ _ _ (fun h => hpn h.symm)]
            exact hpc
          · rw [lookup_cons_ne _ _ _ _ (fun h => hcpn h.symm)]
            exact hcg
    · intro e he
      rcases PQpush_mem_elim st.1 n _ e he with he' | he'
      · subst he'
        refine ⟨gc + 1, lookup_cons_eq _ _ _, ?_⟩
        dsimp only
        exact Nat.le_refl _
      · obtain ⟨gp, hgp, hle⟩ := Hent e he'
        by_cases hen : e.1 = n
        · rw [hen] at hgp
          have := hbetter gp hgp
          rw [hen]
          refine ⟨gc + 1, lookup_cons_eq _ _ _, ?_⟩
          rw [hen] at hle
          omega
        · refine ⟨gp, ?_, hle⟩
          rw [lookup_cons_ne _ _ _ _ (fun h => hen h.symm)]
          exact hgp
    · intro p hpn
      rw [lookup_cons_ne _ _ _ _ (fun h => hpn h.symm)]
    · intro p
      by_cases hpn : p = n
      · subst hpn
        exact Or.inr ⟨gc, hgc, rfl, lookup_cons_eq _ _ _⟩
      · exact Or.inl (lookup_cons_ne _ _ _ _ (fun h => hpn h.symm))
    · intro p v hp
      by_cases hpn : p = n
      · subst hpn
        rw [lookup_cons_eq] at hp
        injection hp with hp
        right
        rw [← hp]
        exact PQpush_mem_self st.1 p (gc + 1 + cubeDistance p b)
      · rw [lookup_cons_ne _ _ _ _ (fun h => hpn h.symm)] at hp
        exact Or.inl hp
    · intro e he
      exact PQpush_mem st.1 n _ e he
    · -- optimally scored nodes keep their scores
      intro p hp
      by_cases hpn : p = n
      · subst hpn
        have hcontra := hbetter _ hp
        exact absurd hcontra (by omega)
      · rw [lookup_cons_ne _ _ _ _ (fun h => hpn h.symm)]
        exact hp
    · -- the measure never increases under a relaxation
      unfold astarMeasure
      rw [← List.countP_eq_length_filter, ← List.countP_eq_length_filter,
        ← List.countP_eq_length_filter, ← List.countP_eq_length_filter]
      rw [PQpush_countP, List.countP_cons]
      dsimp only
      have hnopt : (List.lookup n st.2.2 == some (cubeDistance a n)) = false := by
        cases hgold : List.lookup n st.2.2 with
        | none => rfl
        | some g =>
          have hgt := hbetter g hgold
          rw [beq_eq_false_iff_ne]
          intro hcontra
          injection hcontra with hcontra
          omega
      have hP : (!(List.lookup n st.2.2 ==
          some (cubeDistance a n)) : Bool) = true := by
        rw [hnopt]
        rfl
      have hframe : ∀ y, y ≠ n →
          (!(List.lookup y ((n, gc + 1) :: st.2.2) ==
            some (cubeDistance a y)) : Bool) =
          (!(List.lookup y st.2.2 == some (cubeDistance a y)) : Bool) := by
        intro y hyn
        rw [lookup_cons_ne _ _ _ _ (fun h => hyn h.symm)]
      by_cases hw : gc + 1 + cubeDistance n b ≤ k
      · have hopt : gc + 1 = cubeDistance a n := by
          have htri := cubeDistance_triangle a n b
          omega
        have hQ : (!(List.lookup n ((n, gc + 1) :: st.2.2) ==
            some (cubeDistance a n)) : Bool) = false := by
          rw [lookup_cons_eq, hopt]
          simp
        have hflip := countP_flip_lt (squareAround a k) n
          (mem_squareAround a n k hdan) _ _ (fun y hy hyn => hframe y hyn)
          hP hQ
        have hif : (if decide (gc + 1 + cubeDistance n b ≤ k) = true
            then 1 else 0) ≤ 1 := by
          split <;> omega
        omega
      · have hd : decide (gc + 1 + cubeDistance n b ≤ k) = false :=
          decide_eq_false hw
        have e2 : (if (false = true) then 1 else 0) = 0 := rfl
        rw [hd, e2]
        have hmono : (squareAround a k).countP
            (fun p => !(List.lookup p ((n, gc + 1) :: st.2.2) ==
              some (cubeDistance a p))) ≤
            (squareAround a k).countP
            (fun p => !(List.lookup p st.2.2 == some (cubeDistance a p))) := by
          apply List.countP_mono_left
          intro y hy hQy
          dsimp only at hQy ⊢
          by_cases hyn : y = n
          · subst hyn
            exact hP
          · rw [← hframe y hyn]
            exact hQy
        omega

theorem astar_fold (grid : Grid) (rank k : Nat) (a b c : HexCoord)
    (hab : cubeDistance a b = k)
    (Hgrid : ∀ p, cubeDistance a p ≤ k →
      ∃ hx, grid.get p = some hx ∧ hx.maxLevel = 0)
    (hcd : cubeDistance a c + 1 ≤ k) :
    ∀ ns : List HexCoord, (∀ n ∈ ns, n ∈ getNeighbors c.q c.r) →
    ∀ st : List HeapEntry × List (HexCoord × HexCoord) × List (HexCoord × Nat),
    heapParentLe st.1 →
    List.lookup a st.2.2 = some 0 →
    (∀ p g, List.lookup p st.2.2 = some g → cubeDistance a p ≤ g) →
    (∀ p g, p ≠ a → List.lookup p st.2.2 = some g →
      ∃ cp gc, List.lookup p st.2.1 = some cp ∧ p ∈ getNeighbors cp.q cp.r ∧
        List.lookup cp st.2.2 = some gc ∧ gc + stepCost grid p ≤ g) →
    (∀ e ∈ st.1, ∃ gp, List.lookup e.1 st.2.2 = some gp ∧
      gp + cubeDistance e.1 b ≤ e.2) →
    heapParentLe (ns.foldl (relaxNeighbor grid rank [] b c 0) st).1 ∧
    List.lookup a (ns.foldl (relaxNeighbor grid rank [] b c 0) st).2.2 =
      some 0 ∧
    (∀ p g,
      List.lookup p (ns.foldl (relaxNeighbor grid rank [] b c 0) st).2.2 =
        some g → cubeDistance a p ≤ g) ∧
    (∀ p g, p ≠ a →
      List.lookup p (ns.foldl (relaxNeighbor grid rank [] b c 0) st).2.2 =
        some g →
      ∃ cp gc,
        List.lookup p
          (ns.foldl (relaxNeighbor grid rank [] b c 0) st).2.1 = some cp ∧
        p ∈ getNeighbors cp.q cp.r ∧
        List.lookup cp
          (ns.foldl (relaxNeighbor grid rank [] b c 0) st).2.2 = some gc ∧
        gc + stepCost grid p ≤ g) ∧
    (∀ e ∈ (ns.foldl (relaxNeighbor grid rank [] b c 0) st).1, ∃ gp,
      List.lookup e.1
        (ns.foldl (relaxNeighbor grid rank [] b c 0) st).2.2 = some gp ∧
      gp + cubeDistance e.1 b ≤ e.2) ∧
    (∀ p, p ∉ ns →
      List.lookup p (ns.foldl (relaxNeighbor grid rank [] b c 0) st).2.2 =
        List.lookup p st.2.2) ∧
    (∀ p,
      List.lookup p (ns.foldl (relaxNeighbor grid rank [] b c 0) st).2.2 =
        List.lookup p st.2.2 ∨
      ∃ gc, List.lookup c st.2.2 = some gc ∧
        List.lookup p (ns.foldl (relaxNeighbor grid rank [] b c 0) st).2.2 =
          some (gc + 1)) ∧
    (∀ p v,
      List.lookup p (ns.foldl (relaxNeighbor grid rank [] b c 0) st).2.2 =
        some v →
      List.lookup p st.2.2 = some v ∨
        (p, v + cubeDistance p b) ∈
          (ns.foldl (relaxNeighbor grid rank [] b c 0) st).1) ∧
    (∀ e ∈ st.1, e ∈ (ns.foldl (relaxNeighbor grid rank [] b c 0) st).1) ∧
    (∀ p, List.lookup p st.2.2 = some (cubeDistance a p) →
      List.lookup p (ns.foldl (relaxNeighbor grid rank [] b c 0) st).2.2 =
        some (cubeDistance a p)) ∧
    astarMeasure a k (ns.foldl (relaxNeighbor grid rank [] b c 0) st).1
        (ns.foldl (relaxNeighbor grid rank [] b c 0) st).2.2 ≤
      astarMeasure a k st.1 st.2.2 := by
  intro ns
  induction ns with
  | nil =>
    intro hns st Hheap HgA Hlow Hpar Hent
    exact ⟨Hheap, HgA, Hlow, Hpar, Hent, fun p _ => rfl, fun p => Or.inl rfl,
      fun p v h => Or.inl h, fun e he => he, fun p hp => hp, Nat.le_refl _⟩
  | cons n ns ih =>
    intro hns st Hheap HgA Hlow Hpar Hent
    have hn : n ∈ getNeighbors c.q c.r := hns n (List.mem_cons_self n ns)
    obtain ⟨R1, R2, R3, R4, R5, R6, R7, R8, R9, R10, R11⟩ :=
      relax_step grid rank k a b c n hab Hgrid hcd hn st
        Hheap HgA Hlow Hpar Hent
    have hfold : (n :: ns).foldl (relaxNeighbor grid rank [] b c 0) st =
        ns.foldl (relaxNeighbor grid rank [] b c 0)
          (relaxNeighbor grid rank [] b c 0 st n) := rfl
    rw [hfold]
    obtain ⟨F1, F2, F3, F4, F5, F6, F7, F8, F9, F10, F11⟩ :=
      ih (fun m hm => hns m (List.mem_cons_of_mem n hm))
        (relaxNeighbor grid rank [] b c 0 st n) R1 R2 R3 R4 R5
    have hcfr : List.lookup c
        (relaxNeighbor grid rank [] b c 0 st n).2.2 =
        List.lookup c st.2.2 := by
      apply R6
      intro he
      rw [he] at hn
      exact center_not_mem_getNeighbors n.q n.r hn
    refine ⟨F1, F2, F3, F4, F5, ?_, ?_, ?_, ?_, ?_, ?_⟩
    · intro p hp
      rw [F6 p (fun hm => hp (List.mem_cons_of_mem n hm))]
      exact R6 p (fun he => hp (he ▸ List.mem_cons_self n ns))
    · intro p
      rcases F7 p with hF | ⟨gc, hgc, hv⟩
      · rw [hF]
        rcases R7 p with hR | ⟨gc, hgc, hpn, hv⟩
        · exact Or.inl hR
        · exact Or.inr ⟨gc, hgc, hv⟩
      · rw [hcfr] at hgc
        exact Or.inr ⟨gc, hgc, hv⟩
    · intro p v hp
      rcases F8 p v hp with hF | hF
      · rcases R8 p v hF with hR | hR
        · exact Or.inl hR
        · exact Or.inr (F9 _ hR)
      · exact Or.inr hF
    · intro e he
      exact F9 e (R9 e he)
    · intro p hp
      exact F10 p (R10 p hp)
    · exact Nat.le_trans F11 R11

theorem frontier_of_entries (gs : List (HexCoord × Nat))
    (heap : List HeapEntry) (a dir : HexCoord) (k : Nat) :
    ∀ m j, k - j ≤ m → j ≤ k →
    List.lookup (linePoint a dir j) gs = some j →
    (linePoint a dir j, k) ∈ heap →
    (∀ i, j < i → i ≤ k → List.lookup (linePoint a dir i) gs = some i →
      (linePoint a dir i, k) ∈ heap) →
    ∃ jf, jf ≤ k ∧ List.lookup (linePoint a dir jf) gs = some jf ∧
      (linePoint a dir jf, k) ∈ heap ∧
      ∀ i, jf < i → i ≤ k → List.lookup (linePoint a dir i) gs ≠ some i := by
  intro m
  induction m with
  | zero =>
    intro j hm hjk h2 h3 h4
    refine ⟨j, hjk, h2, h3, ?_⟩
    intro i hji hik hcon
    omega
  | succ m ih =>
    intro j hm hjk h2 h3 h4
    by_cases hex : ∃ i, j < i ∧ i ≤ k ∧
        List.lookup (linePoint a dir i) gs = some i
    · obtain ⟨i, hji, hik, hi⟩ := hex
      exact ih i (by omega) hik hi (h4 i hji hik hi)
        (fun i2 hii2 hik2 hi2 => h4 i2 (by omega) hik2 hi2)
    · push_neg at hex
      exact ⟨j, hjk, h2, h3, fun i hji hik hcon => hex i hji hik hcon⟩


/-! ## C7: the A* main loop on a straight line -/

theorem dist_a_linePoint (a d : HexCoord) (hd : d ∈ hexDirections) (j : Nat) :
    cubeDistance a (linePoint a d j) = j := by
  have h := linePoint_dist a d hd 0 j (Nat.zero_le j)
  rw [linePoint_zero] at h
  simpa using h

theorem cubeDistance_eq_zero (x y : HexCoord) (h : cubeDistance x y = 0) :
    x = y := by
  obtain ⟨xq, xr⟩ := x
  obtain ⟨yq, yr⟩ := y
  unfold cubeDistance at h
  dsimp only at h
  simp only [HexCoord.mk.injEq]
  omega

/-- The A* loop lemma for the straight-line scenario: from any state
satisfying the invariant, with fuel above the measure, the loop returns a
path of length and cost exactly `k`. -/
theorem astar_line_loop (cfg : SafetyConfig) (grid : Grid) (rank : Nat)
    (a dir : HexCoord) (k : Nat) (hd : dir ∈ hexDirections)
    (Hgrid : ∀ p, cubeDistance a p ≤ k →
      ∃ hx, grid.get p = some hx ∧ hx.maxLevel = 0)
    (hcap : k ≤ cfg.maxPathLength) :
    ∀ fuel (openSet : List HeapEntry)
      (cameFrom : List (HexCoord × HexCoord)) (gScore : List (HexCoord × Nat)),
    AStarInv grid a (linePoint a dir k) dir k openSet cameFrom gScore →
    astarMeasure a k openSet gScore < fuel →
    ∃ path, astarLoop cfg grid rank [] a (linePoint a dir k) fuel openSet
        cameFrom gScore = some path ∧
      path.length = k ∧ pathCost grid path = k := by
  have habk : cubeDistance a (linePoint a dir k) = k :=
    dist_a_linePoint a dir hd k
  intro fuel
  induction fuel with
  | zero =>
    intro openSet cameFrom gScore hinv hmeas
    omega
  | succ f ih =>
    intro openSet cameFrom gScore hinv hmeas
    obtain ⟨j0, hj0k, hj0g, hj0mem, hj0max⟩ := hinv.frontier
    have hne : openSet ≠ [] := by
      intro h
      rw [h] at hj0mem
      cases hj0mem
    obtain ⟨t, openRest, hpop⟩ := PQpop_isSome openSet hne
    obtain ⟨cnode, w⟩ := t
    have hperm := PQpop_perm openSet (cnode, w) openRest hpop
    have hwk : w ≤ k := by
      have hmin := PQpop_min openSet (cnode, w) openRest hinv.heap hpop
        (linePoint a dir j0, k) hj0mem
      simpa using hmin
    have htmem : (cnode, w) ∈ openSet :=
      hperm.mem_iff.mpr (List.mem_cons_self _ _)
    obtain ⟨gp, hgp, hgph⟩ := hinv.entries (cnode, w) htmem
    dsimp only at hgp hgph
    have hglow := hinv.gLower cnode gp hgp
    have htri := cubeDistance_triangle a cnode (linePoint a dir k)
    have hgpopt : gp = cubeDistance a cnode := by omega
    have hsum : cubeDistance a cnode +
        cubeDistance cnode (linePoint a dir k) = k := by omega
    rw [astarLoop, hpop]
    dsimp only
    have hguard : ¬((List.lookup cnode gScore).getD 0 > cfg.maxPathLength) := by
      rw [hgp]
      dsimp only [Option.getD]
      omega
    rw [if_neg hguard]
    by_cases hend : cnode = linePoint a dir k
    · -- the goal is popped: reconstruct
      rw [if_pos hend]
      have hdac : cubeDistance a cnode = k := by rw [hend]; exact habk
      have hgpk : gp = k := by omega
      rw [hend, hgpk] at hgp
      obtain ⟨hlen, hcost⟩ := reconstruct_at_goal grid cameFrom gScore a
        (linePoint a dir k) k hinv.parent hgp habk
      exact ⟨_, rfl, hlen, hcost⟩
    · rw [if_neg hend]
      have hcnb0 : cubeDistance cnode (linePoint a dir k) ≠ 0 := by
        intro h0
        exact hend (cubeDistance_eq_zero _ _ h0)
      have hcd : cubeDistance a cnode + 1 ≤ k := by omega
      obtain ⟨hx, hgx, hlx⟩ := Hgrid cnode (by omega)
      have hcl : (match grid.get cnode with
          | some hex => hex.maxLevel
          | none => 0) = 0 := by
        rw [hgx]
        exact hlx
      rw [hcl]
      have hheapR : heapParentLe openRest :=
        PQpop_order openSet _ _ hinv.heap hpop
      have hentR : ∀ e ∈ openRest, ∃ gpe, List.lookup e.1 gScore = some gpe ∧
          gpe + cubeDistance e.1 (linePoint a dir k) ≤ e.2 :=
        fun e he => hinv.entries e (hperm.mem_iff.mpr
          (List.mem_cons_of_mem _ he))
      have hmpop : astarMeasure a k openRest gScore + 1 ≤
          astarMeasure a k openSet gScore := by
        unfold astarMeasure
        simp only [← List.countP_eq_length_filter]
        have hcnt := PQpop_countP openSet (cnode, w) openRest hpop
          (fun e => decide (e.2 ≤ k))
        rw [hcnt, List.countP_cons]
        dsimp only
        rw [if_pos (show decide (w ≤ k) = true by simpa using hwk)]
        omega
      rcases Classical.em ((linePoint a dir j0, k) ∈ openRest) with hA | hB
      · -- the frontier witness survives the pop
        obtain ⟨F1, F2, F3, F4, F5, F6, F7, F8, F9, F10, F11⟩ :=
          astar_fold grid rank k a (linePoint a dir k) cnode habk Hgrid hcd
            (getNeighbors cnode.q cnode.r) (fun n hn => hn)
            (openRest, cameFrom, gScore) hheapR hinv.gA hinv.gLower
            hinv.parent hentR
        have hj0opt : cubeDistance a (linePoint a dir j0) = j0 :=
          dist_a_linePoint a dir hd j0
        have h2 : List.lookup (linePoint a dir j0)
            ((getNeighbors cnode.q cnode.r).foldl
              (relaxNeighbor grid rank [] (linePoint a dir k) cnode 0)
              (openRest, cameFrom, gScore)).2.2 = some j0 := by
          have hh := F10 (linePoint a dir j0) (by rw [hj0opt]; exact hj0g)
          rw [hj0opt] at hh
          exact hh
        have h3 := F9 _ hA
        have h4 : ∀ i, j0 < i → i ≤ k →
            List.lookup (linePoint a dir i)
              ((getNeighbors cnode.q cnode.r).foldl
                (relaxNeighbor grid rank [] (linePoint a dir k) cnode 0)
                (openRest, cameFrom, gScore)).2.2 = some i →
            (linePoint a dir i, k) ∈
              ((getNeighbors cnode.q cnode.r).foldl
                (relaxNeighbor grid rank [] (linePoint a dir k) cnode 0)
                (openRest, cameFrom, gScore)).1 := by
          intro i hji hik hi
          rcases F8 (linePoint a dir i) i hi with hold | hnew
          · exact absurd hold (hj0max i hji hik)
          · have hsum2 : i + cubeDistance (linePoint a dir i)
                (linePoint a dir k) = k := by
              rw [linePoint_dist a dir hd i k hik]
              omega
            rw [hsum2] at hnew
            exact hnew
        obtain ⟨jf, hjf1, hjf2, hjf3, hjf4⟩ := frontier_of_entries _ _ a dir k
          (k - j0) j0 (Nat.le_refl _) hj0k h2 h3 h4
        dsimp only at F11
        exact ih _ _ _ ⟨F1, F2, F3, F4, F5, ⟨jf, hjf1, hjf2, hjf3, hjf4⟩⟩
          (by omega)
      · -- the pop consumed the frontier witness: relax restores it
        have hhead : (linePoint a dir j0, k) = (cnode, w) := by
          rcases List.mem_cons.mp (hperm.mem_iff.mp hj0mem) with h | h
          · exact h
          · exact absurd h hB
        have hc : linePoint a dir j0 = cnode := congrArg Prod.fst hhead
        have hj0lt : j0 < k := by
          rcases Nat.lt_or_ge j0 k with h | h
          · exact h
          · have hjk : j0 = k := by omega
            rw [hjk] at hc
            exact absurd hc.symm hend
        have hgpj0 : gp = j0 := by
          rw [← hc, hj0g] at hgp
          injection hgp with h
          omega
        have hmemN : linePoint a dir (j0 + 1) ∈
            getNeighbors cnode.q cnode.r := by
          rw [← hc]
          exact linePoint_succ_mem_neighbors a dir hd j0
        obtain ⟨pre, post, hsplit⟩ := List.append_of_mem hmemN
        have hnd : (getNeighbors cnode.q cnode.r).Nodup :=
          getNeighbors_nodup cnode.q cnode.r
        rw [hsplit] at hnd
        have hnmid := List.nodup_middle.mp hnd
        have hnotmem : linePoint a dir (j0 + 1) ∉ pre ∧
            linePoint a dir (j0 + 1) ∉ post := by
          have hnm := (List.nodup_cons.mp hnmid).1
          rw [List.mem_append] at hnm
          push_neg at hnm
          exact hnm
        have hpre_sub : ∀ n ∈ pre, n ∈ getNeighbors cnode.q cnode.r := by
          intro n hn
          rw [hsplit]
          exact List.mem_append.mpr (Or.inl hn)
        have hpost_sub : ∀ n ∈ post, n ∈ getNeighbors cnode.q cnode.r := by
          intro n hn
          rw [hsplit]
          exact List.mem_append.mpr (Or.inr (List.mem_cons_of_mem _ hn))
        obtain ⟨P1, P2, P3, P4, P5, P6, P7, P8, P9, P10, P11⟩ :=
          astar_fold grid rank k a (linePoint a dir k) cnode habk Hgrid hcd
            pre hpre_sub (openRest, cameFrom, gScore) hheapR hinv.gA
            hinv.gLower hinv.parent hentR
        have hcnotpre : cnode ∉ pre := by
          intro hcp
          exact center_not_mem_getNeighbors cnode.q cnode.r (hpre_sub cnode hcp)
        have hcst1 : List.lookup cnode
            (pre.foldl (relaxNeighbor grid rank [] (linePoint a dir k)
              cnode 0) (openRest, cameFrom, gScore)).2.2 = some j0 := by
          rw [P6 cnode hcnotpre]
          rw [← hgpj0]
          exact hgp
        have hclause3 : ∀ i, j0 < i → i ≤ k →
            List.lookup (linePoint a dir i)
              (pre.foldl (relaxNeighbor grid rank [] (linePoint a dir k)
                cnode 0) (openRest, cameFrom, gScore)).2.2 ≠ some i := by
          intro i hji hik hcon
          by_cases hieq : i = j0 + 1
          · rw [hieq] at hcon
            rw [P6 _ hnotmem.1] at hcon
            exact hj0max (j0 + 1) (by omega) (by omega) hcon
          · rcases P7 (linePoint a dir i) with hsame | ⟨gcv, hgcv, hv⟩
            · rw [hsame] at hcon
              exact hj0max i hji hik hcon
            · dsimp only at hgcv
              rw [hgp] at hgcv
              injection hgcv with hgcv
              rw [hv] at hcon
              injection hcon with hcon
              omega
        rcases relax_spec grid rank k a (linePoint a dir k) cnode
            (linePoint a dir (j0 + 1)) Hgrid hcd hmemN
            (pre.foldl (relaxNeighbor grid rank [] (linePoint a dir k)
              cnode 0) (openRest, cameFrom, gScore)) with
          ⟨heq1, hforce⟩ | ⟨gc1, hgc1, hbet1, heq1⟩
        · obtain ⟨gOld, hgOld, hgOldle⟩ := hforce j0 hcst1
          have hge := P3 _ _ hgOld
          rw [dist_a_linePoint a dir hd (j0 + 1)] at hge
          have hne2 := hclause3 (j0 + 1) (by omega) (by omega)
          have hgeq : gOld = j0 + 1 := by omega
          rw [hgeq] at hgOld
          exact absurd hgOld hne2
        · rw [hcst1] at hgc1
          injection hgc1 with hgc1
          rw [← hgc1] at hbet1 heq1
          obtain ⟨Q1, Q2, Q3, Q4, Q5, Q6, Q7, Q8, Q9, Q10, Q11⟩ :=
            relax_step grid rank k a (linePoint a dir k) cnode
              (linePoint a dir (j0 + 1)) habk Hgrid hcd hmemN
              (pre.foldl (relaxNeighbor grid rank [] (linePoint a dir k)
                cnode 0) (openRest, cameFrom, gScore)) P1 P2 P3 P4 P5
          have h2m : List.lookup (linePoint a dir (j0 + 1))
              (relaxNeighbor grid rank [] (linePoint a dir k) cnode 0
                (pre.foldl (relaxNeighbor grid rank [] (linePoint a dir k)
                  cnode 0) (openRest, cameFrom, gScore))
                (linePoint a dir (j0 + 1))).2.2 = some (j0 + 1) := by
            rw [heq1]
            dsimp only
            exact lookup_cons_eq _ _ _
          have hwkk : j0 + 1 + cubeDistance (linePoint a dir (j0 + 1))
              (linePoint a dir k) = k := by
            rw [linePoint_dist a dir hd (j0 + 1) k (by omega)]
            omega
          have h3m : (linePoint a dir (j0 + 1), k) ∈
              (relaxNeighbor grid rank [] (linePoint a dir k) cnode 0
                (pre.foldl (relaxNeighbor grid rank [] (linePoint a dir k)
                  cnode 0) (openRest, cameFrom, gScore))
                (linePoint a dir (j0 + 1))).1 := by
            rw [heq1]
            dsimp only
            have hpairx : (linePoint a dir (j0 + 1), k) =
                (linePoint a dir (j0 + 1), j0 + 1 +
                  cubeDistance (linePoint a dir (j0 + 1)) (linePoint a dir k)) := by
              rw [hwkk]
            rw [hpairx]
            exact PQpush_mem_self _ _ _
          have h4m : ∀ i, j0 + 1 < i → i ≤ k →
              List.lookup (linePoint a dir i)
                (relaxNeighbor grid rank [] (linePoint a dir k) cnode 0
                  (pre.foldl (relaxNeighbor grid rank []
                    (linePoint a dir k) cnode 0)
                    (openRest, cameFrom, gScore))
                  (linePoint a dir (j0 + 1))).2.2 ≠ some i := by
            intro i hji hik hcon
            rw [heq1] at hcon
            dsimp only at hcon
            rw [lookup_cons_ne _ _ _ _
              (linePoint_ne a dir hd (j0 + 1) i (by omega))] at hcon
            exact hclause3 i (by omega) hik hcon
          obtain ⟨S1, S2, S3, S4, S5, S6, S7, S8, S9, S10, S11⟩ :=
            astar_fold grid rank k a (linePoint a dir k) cnode habk Hgrid hcd
              post hpost_sub
              (relaxNeighbor grid rank [] (linePoint a dir k) cnode 0
                (pre.foldl (relaxNeighbor grid rank [] (linePoint a dir k)
                  cnode 0) (openRest, cameFrom, gScore))
                (linePoint a dir (j0 + 1))) Q1 Q2 Q3 Q4 Q5
          have hj1opt : cubeDistance a (linePoint a dir (j0 + 1)) = j0 + 1 :=
            dist_a_linePoint a dir hd (j0 + 1)
          have h2f := S10 (linePoint a dir (j0 + 1))
            (by rw [hj1opt]; exact h2m)
          rw [hj1opt] at h2f
          have h3f := S9 _ h3m
          have h4f : ∀ i, j0 + 1 < i → i ≤ k →
              List.lookup (linePoint a dir i)
                (post.foldl (relaxNeighbor grid rank [] (linePoint a dir k)
                  cnode 0)
                  (relaxNeighbor grid rank [] (linePoint a dir k) cnode 0
                    (pre.foldl (relaxNeighbor grid rank []
                      (linePoint a dir k) cnode 0)
                      (openRest, cameFrom, gScore))
                    (linePoint a dir (j0 + 1)))).2.2 = some i →
              (linePoint a dir i, k) ∈
                (post.foldl (relaxNeighbor grid rank [] (linePoint a dir k)
                  cnode 0)
                  (relaxNeighbor grid rank [] (linePoint a dir k) cnode 0
                    (pre.foldl (relaxNeighbor grid rank []
                      (linePoint a dir k) cnode 0)
                      (openRest, cameFrom, gScore))
                    (linePoint a dir (j0 + 1)))).1 := by
            intro i hji hik hi
            rcases S8 (linePoint a dir i) i hi with hold | hnew
            · exact absurd hold (h4m i hji hik)
            · have hsum2 : i + cubeDistance (linePoint a dir i)
                  (linePoint a dir k) = k := by
                rw [linePoint_dist a dir hd i k hik]
                omega
              rw [hsum2] at hnew
              exact hnew
          obtain ⟨jf, hjf1, hjf2, hjf3, hjf4⟩ := frontier_of_entries _ _
            a dir k (k - (j0 + 1)) (j0 + 1) (Nat.le_refl _) (by omega)
            h2f h3f h4f
          have hfoldeq : (getNeighbors cnode.q cnode.r).foldl
              (relaxNeighbor grid rank [] (linePoint a dir k) cnode 0)
              (openRest, cameFrom, gScore) =
              post.foldl (relaxNeighbor grid rank [] (linePoint a dir k)
                cnode 0)
                (relaxNeighbor grid rank [] (linePoint a dir k) cnode 0
                  (pre.foldl (relaxNeighbor grid rank []
                    (linePoint a dir k) cnode 0)
                    (openRest, cameFrom, gScore))
                  (linePoint a dir (j0 + 1))) := by
            rw [hsplit, List.foldl_append]
            rfl
          rw [hfoldeq]
          dsimp only at P11
          exact ih _ _ _ ⟨S1, S2, S3, S4, S5, ⟨jf, hjf1, hjf2, hjf3, hjf4⟩⟩
            (by omega)


/-- C7: for every pair of distinct coordinates `A` and `B = A + k·dir` on
a straight line of `k ≥ 1` steps along one of the six hex directions,
when every hex within distance `k` of `A` exists at `maxLevel` 0 (the
line and its surroundings are unobstructed level-0 terrain), the obstacle
list is empty, `k` is within the `MAX_PATH_LENGTH` cap and the iteration
budget covers the `(2k+1)²` reachable square, `findPath` returns a path
whose number of steps and whose total step cost (`neighbor.maxLevel` when
at least 2, else 1) both equal `cubeDistance A B`. -/
theorem findpath_straight_line_optimal (cfg : SafetyConfig) (grid : Grid)
    (rank : Nat) (a dir : HexCoord) (k : Nat) (hdir : dir ∈ hexDirections)
    (hk : 1 ≤ k)
    (Hgrid : ∀ p, cubeDistance a p ≤ k →
      ∃ hx, grid.get p = some hx ∧ hx.maxLevel = 0)
    (hcap : k ≤ cfg.maxPathLength)
    (hiter : (2 * k + 1) * (2 * k + 1) + 1 ≤ cfg.maxSearchIterations) :
    ∃ path, findPath cfg a (linePoint a dir k) grid rank [] = some path ∧
      path.length = cubeDistance a (linePoint a dir k) ∧
      pathCost grid path = cubeDistance a (linePoint a dir k) := by
  have habk : cubeDistance a (linePoint a dir k) = k :=
    dist_a_linePoint a dir hdir k
  have hne : a ≠ linePoint a dir k := by
    intro he
    rw [← he, cubeDistance_self] at habk
    omega
  simp only [findPath]
  rw [if_neg hne]
  rw [if_neg (show ¬(cubeDistance a (linePoint a dir k) >
    cfg.maxPathLength) by omega)]
  rw [if_neg (List.not_mem_nil (linePoint a dir k))]
  rw [habk]
  have hinit : PQpush [] a k = [(a, k)] := by
    unfold PQpush
    rw [bubbleUp]
    simp
  rw [hinit]
  have hinv : AStarInv grid a (linePoint a dir k) dir k
      [(a, k)] [] [(a, 0)] := by
    refine ⟨?_, ?_, ?_, ?_, ?_, ?_⟩
    · intro i e p hi he hp
      cases i with
      | zero => omega
      | succ i => simp at he
    · exact lookup_cons_eq _ _ _
    · intro p g hp
      by_cases hpa : p = a
      · subst hpa
        rw [lookup_cons_eq] at hp
        injection hp with hp
        rw [cubeDistance_self]
        omega
      · rw [lookup_cons_ne _ _ _ _ (fun h => hpa h.symm)] at hp
        simp [List.lookup] at hp
    · intro p g hpa hp
      rw [lookup_cons_ne _ _ _ _ (fun h => hpa h.symm)] at hp
      simp [List.lookup] at hp
    · intro e he
      rw [List.mem_singleton] at he
      subst he
      refine ⟨0, lookup_cons_eq _ _ _, ?_⟩
      dsimp only
      omega
    · refine ⟨0, Nat.zero_le k, ?_, ?_, ?_⟩
      · rw [linePoint_zero]
        exact lookup_cons_eq _ _ _
      · rw [linePoint_zero]
        exact List.mem_singleton.mpr rfl
      · intro i h0i hik hcon
        have hai : a ≠ linePoint a dir i := by
          have hLne := linePoint_ne a dir hdir 0 i (by omega)
          rw [linePoint_zero] at hLne
          exact hLne
        rw [lookup_cons_ne _ _ _ _ hai] at hcon
        simp [List.lookup] at hcon
  have hmb : astarMeasure a k [(a, k)] [(a, 0)] <
      cfg.maxSearchIterations + 1 := by
    unfold astarMeasure
    have h1 : (([(a, k)] : List HeapEntry).filter
        fun e => e.2 ≤ k).length ≤ 1 := by
      have := List.length_filter_le (fun (e : HeapEntry) =>
        decide (e.2 ≤ k)) [(a, k)]
      simpa using this
    have h2 : ((squareAround a k).filter fun p =>
        !(List.lookup p [(a, 0)] == some (cubeDistance a p))).length ≤
        (2 * k + 1) * (2 * k + 1) := by
      have hle := List.length_filter_le (fun p =>
        !(List.lookup p [(a, 0)] == some (cubeDistance a p)))
        (squareAround a k)
      rw [squareAround_length a k] at hle
      exact hle
    omega
  obtain ⟨path, hloop, hlen, hcost⟩ := astar_line_loop cfg grid rank a dir k
    hdir Hgrid hcap (cfg.maxSearchIterations + 1) [(a, k)] [] [(a, 0)]
    hinv hmb
  exact ⟨path, hloop, hlen, hcost⟩

/-- Witness for C7 at a concrete input: a one-step line east of the
origin over a 3×3 block of fresh level-0 hexes, with caps 1 and 10. -/
theorem findpath_straight_line_optimal_witness :
    ∃ path, findPath ⟨1, 10⟩ ⟨0, 0⟩ (linePoint ⟨0, 0⟩ ⟨1, 0⟩ 1)
        ((squareAround ⟨0, 0⟩ 1).map (fun c => (c, freshHex c))) 0 [] =
        some path ∧
      path.length = cubeDistance ⟨0, 0⟩ (linePoint ⟨0, 0⟩ ⟨1, 0⟩ 1) ∧
      pathCost ((squareAround ⟨0, 0⟩ 1).map (fun c => (c, freshHex c)))
        path = cubeDistance ⟨0, 0⟩ (linePoint ⟨0, 0⟩ ⟨1, 0⟩ 1) := by
  apply findpath_straight_line_optimal ⟨1, 10⟩
    ((squareAround ⟨0, 0⟩ 1).map (fun c => (c, freshHex c))) 0
    ⟨0, 0⟩ ⟨1, 0⟩ 1 (by decide) (by decide)
  · intro p hp
    obtain ⟨pq, pr⟩ := p
    unfold cubeDistance at hp
    dsimp only at hp
    have hcases : (pq = 0 ∧ pr = 0) ∨ (pq = 1 ∧ pr = 0) ∨
        (pq = 1 ∧ pr = -1) ∨ (pq = 0 ∧ pr = -1) ∨ (pq = -1 ∧ pr = 0) ∨
        (pq = -1 ∧ pr = 1) ∨ (pq = 0 ∧ pr = 1) := by omega
    rcases hcases with ⟨h1, h2⟩ | ⟨h1, h2⟩ | ⟨h1, h2⟩ | ⟨h1, h2⟩ |
      ⟨h1, h2⟩ | ⟨h1, h2⟩ | ⟨h1, h2⟩ <;> subst h1 <;> subst h2 <;>
      exact ⟨_, rfl, rfl⟩
  · decide
  · decide

end HexQuest
